import Mathlib

/-!
Shallow embedding of the Telofy reconciliation engine
(src/lib/services/syncService.ts) and of the remote-store contract it
consumes (src/lib/api/client.ts, spec section 6).

The engine is modeled as pure functions over an explicit world state.
JavaScript Map objects are modeled as insertion-ordered association lists
with overwrite-in-place set semantics (the exact behavior of Map.set /
Map.get / the Map constructor).  Remote-store effects of the collaborator
API are modeled as list appends and in-place updates, following the
section-6 collaborator contract: a successful createObjective /
createTask materializes the submitted payload in the remote store, and a
successful updateTask patches the stored task.  Entity fields that are
inert payload for reconciliation (descriptions, weights, dates,
durations, streaks) are elided from the entity records; identifiers,
names, child structure, statuses, completion instants and skip reasons
are kept, since those are the data the reconciliation control flow and
the issued calls depend on.
-/

namespace TelofySync

/-- JS Map.set semantics: overwrite the entry in place if the key exists,
otherwise append a new entry at the end. -/
def jsSet (m : List (String × α)) (k : String) (v : α) : List (String × α) :=
  if m.any (fun p => p.1 == k) then
    m.map (fun p => if p.1 == k then (k, v) else p)
  else m ++ [(k, v)]

/-- JS Map.get semantics: value of the first (unique) entry with the key. -/
def jsGet (m : List (String × α)) (k : String) : Option α :=
  (m.find? (fun p => p.1 == k)).map (fun p => p.2)

/-- JS Map.has semantics. -/
def jsHas (m : List (String × α)) (k : String) : Bool :=
  m.any (fun p => p.1 == k)

/-- Apply a list of writes to a map, in order (repeated Map.set calls). -/
def jsApply (m : List (String × α)) (l : List (String × α)) : List (String × α) :=
  l.foldl (fun acc p => jsSet acc p.1 p.2) m

/-- JS "new Map(pairs)" semantics: set each pair in order, so on duplicate
keys the last entry wins. -/
def jsOfList (l : List (String × α)) : List (String × α) := jsApply [] l

/-- Model of the JS String.prototype.toLowerCase used by the name
matching: fold every character to lower case. -/
def jsToLower (s : String) : String := String.mk (s.data.map Char.toLower)

/-- Hex digit test matching the character class of the UUID regex
(case-insensitive because of the i flag). -/
def isHexChar (c : Char) : Bool :=
  c.isDigit || (('a' ≤ c) && (c ≤ 'f')) || (('A' ≤ c) && (c ≤ 'F'))

/-- Split a character list at every dash (the group structure the UUID
regex tests). -/
def splitDash (cs : List Char) : List (List Char) :=
  match cs with
  | [] => [[]]
  | c :: rest =>
    let r := splitDash rest
    if c = '-' then [] :: r
    else (c :: r.headD []) :: r.tail

/-- Translation of isValidUUID (syncService.ts line 13): the string must be
five dash-separated groups of hex digits with lengths 8-4-4-4-12. -/
def isValidUUID (s : String) : Bool :=
  let gs := splitDash s.data
  (gs.map (fun g => g.length) == [8, 4, 4, 4, 12]) &&
  gs.all (fun g => g.all isHexChar)

/-- Projection of a pillar, metric or ritual: the reconciler only inspects
its id, its name, and (for metrics and rituals) its owning-pillar
reference. -/
structure Child where
  id : String
  name : String
  pillarId : Option String := none
deriving DecidableEq, Repr

/-- Projection of an objective aggregate: id, name, and the three child
collections. -/
structure Objective where
  id : String
  name : String
  pillars : List Child := []
  metrics : List Child := []
  rituals : List Child := []
deriving DecidableEq, Repr

/-- Task statuses; overdue is the local-only derived status, which the
remote store does not understand. -/
inductive TaskStatus
  | pending
  | inProgress
  | completed
  | skipped
  | overdue
deriving DecidableEq, Repr

/-- Projection of a task: the fields the reconciler reads or transmits. -/
structure Task where
  id : String
  objectiveId : String
  pillarId : Option String := none
  ritualId : Option String := none
  title : String := ""
  status : TaskStatus := TaskStatus.pending
  completedAt : Option String := none
  skippedReason : Option String := none
deriving DecidableEq, Repr

/-- SyncStatus (syncService.ts line 58). -/
inductive SyncStatus
  | idle
  | syncing
  | success
  | error
deriving DecidableEq, Repr

/-- A network call issued by the engine, recorded in issuance order. -/
inductive ApiCall
  | getObjectives
  | getObjective (id : String)
  | createObjective (payload : Objective)
  | getTasks
  | createTask (payload : Task)
  | updateTask (id : String) (status : TaskStatus)
      (completedAt : Option String) (skippedReason : Option String)
deriving DecidableEq, Repr

/-- Static environment: authentication, per-call success policies of the
transport, the fresh-UUID generator, and the current time.  generateId
(lib/utils/id, not part of the reconciler) is modeled as an abstract
supply indexed by a counter; where a proof needs its outputs to be fresh
UUIDs that is stated as an explicit hypothesis. -/
structure Env where
  isAuthenticated : Bool := true
  getObjectivesOk : Bool := true
  getObjectiveOk : String → Bool := fun _ => true
  createObjectiveOk : Objective → Bool := fun _ => true
  getTasksOk : Bool := true
  createTaskOk : Task → Bool := fun _ => true
  updateTaskOk : String → Bool := fun _ => true
  genId : Nat → String := fun n => "gen-" ++ toString n
  now : Nat := 0

/-- The mutable world: the two local stores, the remote stores (today's
window for tasks), the module-level idMapping, the generateId counter, and
the module-level syncState fields (status, lastSyncAt, error). -/
structure World where
  localObjectives : List Objective := []
  localTasks : List Task := []
  remoteObjectives : List Objective := []
  remoteTasks : List Task := []
  idMapping : List (String × String) := []
  fresh : Nat := 0
  status : SyncStatus := SyncStatus.idle
  lastSyncAt : Option Nat := none
  errMsg : Option String := none
deriving DecidableEq, Repr

/-- Error message the api client raises on a network failure. -/
def netErrMsg : String :=
  "Unable to connect to server. Please check your internet connection."

/-- Per-objective upload error message (syncService.ts line 254). -/
def failObjMsg (name : String) : String :=
  "Failed to upload objective \"" ++ name ++ "\""

/-- Per-task upload error message (syncService.ts line 384). -/
def failTaskMsg (title : String) : String :=
  "Failed to upload task \"" ++ title ++ "\""

/-- Aggregated error text stored in syncState (syncService.ts line 122). -/
def countErrMsg (n : Nat) : String :=
  toString n ++ " item(s) failed to sync"

/-- Aggregated error text returned from syncAll (syncService.ts line 130). -/
def countErrMsgResult (n : Nat) : String :=
  toString n ++ " item(s) failed to sync. Check console for details."

/-- One by-name matching pass over a child collection
(mapPillarsAndRituals inner loops): for each local child, find the first
remote child whose lowercased name matches, and register the mapping. -/
def mapChildrenByName (idm : List (String × String))
    (locals remotes : List Child) : List (String × String) :=
  locals.foldl
    (fun acc lc =>
      match remotes.find? (fun rc => jsToLower rc.name == jsToLower lc.name) with
      | some rc => jsSet acc lc.id rc.id
      | none => acc)
    idm

/-- mapPillarsAndRituals (syncService.ts lines 22-52): map pillars, then
metrics, then rituals of a matched local/remote objective pair by
case-insensitive name. -/
def mapPillarsAndRituals (idm : List (String × String))
    (lobj remote : Objective) : List (String × String) :=
  mapChildrenByName
    (mapChildrenByName
      (mapChildrenByName idm lobj.pillars remote.pillars)
      lobj.metrics remote.metrics)
    lobj.rituals remote.rituals

/-- Pre-generate server ids for a child collection (syncService.ts lines
192-203): reuse the local id when it is already UUID-shaped, otherwise
draw a fresh id from the generator.  Returns the (localId, serverId)
pairs in collection order together with the advanced counter. -/
def mintChildIds (gen : Nat → String) (fresh : Nat) :
    List Child → List (String × String) × Nat
  | [] => ([], fresh)
  | c :: rest =>
    if isValidUUID c.id then
      let (m, f) := mintChildIds gen fresh rest
      ((c.id, c.id) :: m, f)
    else
      let (m, f) := mintChildIds gen (fresh + 1) rest
      ((c.id, gen fresh) :: m, f)

/-- The createObjective payload (syncService.ts lines 208-244): the
objective under its pre-minted id, each child under its pre-minted server
id, with metric and ritual owning-pillar references resolved to the
pillar's server id through the positional pillar mappings. -/
def buildPayload (lobj : Objective) (objectiveId : String)
    (pm mm rm : List (String × String)) : Objective :=
  { id := objectiveId
    name := lobj.name
    pillars := List.zipWith (fun (c : Child) (q : String × String) =>
      { id := q.2, name := c.name, pillarId := none }) lobj.pillars pm
    metrics := List.zipWith (fun (c : Child) (q : String × String) =>
      { id := q.2, name := c.name,
        pillarId := c.pillarId.bind (fun pid =>
          (pm.find? (fun t => t.1 == pid)).map (fun t => t.2)) }) lobj.metrics mm
    rituals := List.zipWith (fun (c : Child) (q : String × String) =>
      { id := q.2, name := c.name,
        pillarId := c.pillarId.bind (fun pid =>
          (pm.find? (fun t => t.1 == pid)).map (fun t => t.2)) }) lobj.rituals rm }

/-- The by-lowercase-name remote index (syncService.ts line 163). -/
def buildRemoteByName (objs : List Objective) : List (String × Objective) :=
  jsOfList (objs.map (fun o => (jsToLower o.name, o)))

/-- The by-id remote index (syncService.ts line 164), and the local index
(line 165) share this shape. -/
def buildObjMap (objs : List Objective) : List (String × Objective) :=
  jsOfList (objs.map (fun o => (o.id, o)))

/-- The by-id task indexes (syncService.ts lines 341-342). -/
def buildTaskMap (ts : List Task) : List (String × Task) :=
  jsOfList (ts.map (fun t => (t.id, t)))

/-- Accumulator of the objective upload loop: the idMapping, the errors
collected so far, the trace of issued calls, the server-side objective
store (grown by successful creations), and the generator counter. -/
structure ObjLoopState where
  idm : List (String × String)
  errors : List String
  trace : List ApiCall
  remoteStore : List Objective
  fresh : Nat
deriving DecidableEq, Repr

/-- The id pre-minting of the upload branch (syncService.ts lines
188-203): the objective id and the three positional child mapping lists,
with the generator counter advanced once per freshly generated id, in
source order (objective, then pillars, metrics, rituals). -/
structure UploadPlan where
  objectiveId : String
  pm : List (String × String)
  mm : List (String × String)
  rm : List (String × String)
  fresh : Nat
deriving DecidableEq, Repr

/-- Compute the pre-minted ids of the upload branch. -/
def planUpload (env : Env) (fresh : Nat) (lobj : Objective) : UploadPlan :=
  let oid := if isValidUUID lobj.id then lobj.id else env.genId fresh
  let f1 := if isValidUUID lobj.id then fresh else fresh + 1
  let pmf := mintChildIds env.genId f1 lobj.pillars
  let mmf := mintChildIds env.genId pmf.2 lobj.metrics
  let rmf := mintChildIds env.genId mmf.2 lobj.rituals
  { objectiveId := oid, pm := pmf.1, mm := mmf.1, rm := rmf.1, fresh := rmf.2 }

/-- The payload submitted for a local-only objective, as a function of the
incoming generator counter. -/
def uploadPayload (env : Env) (fresh : Nat) (lobj : Objective) : Objective :=
  buildPayload lobj (planUpload env fresh lobj).objectiveId
    (planUpload env fresh lobj).pm (planUpload env fresh lobj).mm
    (planUpload env fresh lobj).rm

/-- One iteration of the objective upload loop (syncService.ts lines
168-258): match by id, else match by lowercased name, else mint ids,
submit a creation, and on success register all mappings (objective first,
then pillars, metrics, rituals); on failure record the per-objective
error. -/
def objUploadStep (env : Env) (remoteMap remoteByName : List (String × Objective))
    (st : ObjLoopState) (lobj : Objective) : ObjLoopState :=
  match jsGet remoteMap lobj.id with
  | some remote =>
      { st with idm := mapPillarsAndRituals (jsSet st.idm lobj.id lobj.id) lobj remote }
  | none =>
    match jsGet remoteByName (jsToLower lobj.name) with
    | some existingByName =>
        { st with idm :=
            mapPillarsAndRituals (jsSet st.idm lobj.id existingByName.id) lobj existingByName }
    | none =>
        let pl := planUpload env st.fresh lobj
        let payload := buildPayload lobj pl.objectiveId pl.pm pl.mm pl.rm
        if env.createObjectiveOk payload then
          { idm := jsApply (jsSet st.idm lobj.id pl.objectiveId) (pl.pm ++ pl.mm ++ pl.rm)
            errors := st.errors
            trace := st.trace ++ [ApiCall.createObjective payload]
            remoteStore := st.remoteStore ++ [payload]
            fresh := pl.fresh }
        else
          { st with
            errors := st.errors ++ [failObjMsg lobj.name]
            trace := st.trace ++ [ApiCall.createObjective payload]
            fresh := pl.fresh }

/-- Accumulator of the objective download loop. -/
structure DlState where
  idm : List (String × String)
  trace : List ApiCall
  added : List Objective
deriving DecidableEq, Repr

/-- The objective download loop (syncService.ts lines 261-323): for every
fetched remote objective with no local entity of the same id, fetch its
full detail and materialize it locally under its canonical id, then
register the identity trivially.  The detail fetch is not guarded by a
try block in the source, so a failing fetch raises out of the loop; the
mutations already performed persist. -/
def objDownloadLoop (env : Env) (localMap : List (String × Objective)) :
    List Objective → DlState → DlState × Option String
  | [], st => (st, none)
  | r :: rest, st =>
    if jsHas localMap r.id then objDownloadLoop env localMap rest st
    else
      let st1 := { st with trace := st.trace ++ [ApiCall.getObjective r.id] }
      if env.getObjectiveOk r.id then
        objDownloadLoop env localMap rest
          { st1 with
            added := st1.added ++ [r]
            idm := jsSet st1.idm r.id r.id }
      else (st1, some netErrMsg)

/-- Initial accumulator of the objective phase: the fetched remote list is
recorded in the trace, the loop starts from the current module-level
idMapping and the current server store. -/
def objUploadState0 (w : World) : ObjLoopState :=
  { idm := w.idMapping, errors := [], trace := [ApiCall.getObjectives]
    remoteStore := w.remoteObjectives, fresh := w.fresh }

/-- The whole objective upload loop: fold the per-objective step over the
snapshot of local objectives, against the two indexes built once from the
fetched remote list. -/
def objUploadLoop (env : Env) (w : World) : ObjLoopState :=
  w.localObjectives.foldl
    (objUploadStep env (buildObjMap w.remoteObjectives) (buildRemoteByName w.remoteObjectives))
    (objUploadState0 w)

/-- The whole objective download pass, run after the upload loop on the
same fetched remote list, against the local index built from the initial
local snapshot. -/
def objDownload (env : Env) (w : World) (st1 : ObjLoopState) :
    DlState × Option String :=
  objDownloadLoop env (buildObjMap w.localObjectives) w.remoteObjectives
    { idm := st1.idm, trace := st1.trace, added := [] }

/-- syncObjectives (syncService.ts lines 153-326).  Returns the updated
world, the calls issued, and either the collected per-objective errors or
the message of an uncaught exception. -/
def syncObjectives (env : Env) (w : World) :
    World × List ApiCall × Except String (List String) :=
  if env.getObjectivesOk then
    let st1 := objUploadLoop env w
    let dlt := objDownload env w st1
    let w1 := { w with
      localObjectives := w.localObjectives ++ dlt.1.added
      remoteObjectives := st1.remoteStore
      idMapping := dlt.1.idm
      fresh := st1.fresh }
    match dlt.2 with
    | some msg => (w1, dlt.1.trace, Except.error msg)
    | none => (w1, dlt.1.trace, Except.ok st1.errors)
  else (w, [ApiCall.getObjectives], Except.error netErrMsg)

/-- Status translation (syncService.ts line 395): the local-only overdue
status maps to pending; everything else is transmitted untranslated. -/
def apiStatusOf : TaskStatus → TaskStatus
  | TaskStatus.overdue => TaskStatus.pending
  | s => s

/-- Resolution of an optional pillar or ritual reference on a task payload
(syncService.ts lines 359-367): use the idMapping when it has an entry,
else pass the id through only if it is UUID-shaped, else omit the field. -/
def resolveRef (idm : List (String × String)) (r : Option String) : Option String :=
  r.bind (fun p =>
    match jsGet idm p with
    | some s => some s
    | none => if isValidUUID p then some p else none)

/-- Accumulator of the two task loops. -/
structure TaskLoopState where
  errors : List String
  trace : List ApiCall
  remoteStore : List Task
  fresh : Nat
deriving DecidableEq, Repr

/-- The payload submitted for a new local task (syncService.ts lines
355-382), as a function of the incoming generator counter and the
resolved server objective id.  A created remote task is materialized with
the server's default pending status (the payload carries no status
field). -/
def taskPayloadOf (env : Env) (idm : List (String × String)) (fresh : Nat)
    (serverObjectiveId : String) (ltask : Task) : Task :=
  { id := if isValidUUID ltask.id then ltask.id else env.genId fresh
    objectiveId := serverObjectiveId
    pillarId := resolveRef idm ltask.pillarId
    ritualId := resolveRef idm ltask.ritualId
    title := ltask.title
    status := TaskStatus.pending
    completedAt := none
    skippedReason := none }

/-- One iteration of the task upload loop (syncService.ts lines 345-389):
skip tasks already remote; defer (silently) tasks whose objective has no
mapping; otherwise mint the task id, resolve references, and submit a
creation, recording a per-task error on failure. -/
def taskUploadStep (env : Env) (idm : List (String × String))
    (remoteMap : List (String × Task)) (st : TaskLoopState) (ltask : Task) :
    TaskLoopState :=
  if jsHas remoteMap ltask.id then st
  else
    match jsGet idm ltask.objectiveId with
    | none => st
    | some serverObjectiveId =>
      let payload := taskPayloadOf env idm st.fresh serverObjectiveId ltask
      let f1 := if isValidUUID ltask.id then st.fresh else st.fresh + 1
      if env.createTaskOk payload then
        { st with
          trace := st.trace ++ [ApiCall.createTask payload]
          remoteStore := st.remoteStore ++ [payload]
          fresh := f1 }
      else
        { st with
          trace := st.trace ++ [ApiCall.createTask payload]
          errors := st.errors ++ [failTaskMsg ltask.title]
          fresh := f1 }

/-- Patch a stored remote task (section-6 updateTask contract). -/
def updateRemoteTask (store : List Task) (id : String) (s : TaskStatus)
    (completedAt skippedReason : Option String) : List Task :=
  store.map (fun t =>
    if t.id == id then
      { t with status := s, completedAt := completedAt, skippedReason := skippedReason }
    else t)

/-- One iteration of the status reconciliation loop (syncService.ts lines
392-411): for a local task also present in the fetched remote set, push
an update carrying the translated status, the completion instant and the
skip reason whenever the translated status differs from the remote one.
A failed update is swallowed: it is not recorded as an error. -/
def taskStatusStep (env : Env) (remoteMap : List (String × Task))
    (st : TaskLoopState) (ltask : Task) : TaskLoopState :=
  match jsGet remoteMap ltask.id with
  | none => st
  | some remote =>
    if apiStatusOf ltask.status != remote.status then
      let st1 := { st with trace := st.trace ++
        [ApiCall.updateTask ltask.id (apiStatusOf ltask.status)
          ltask.completedAt ltask.skippedReason] }
      if env.updateTaskOk ltask.id then
        { st1 with remoteStore :=
            (updateRemoteTask st1.remoteStore ltask.id (apiStatusOf ltask.status)
              ltask.completedAt ltask.skippedReason) }
      else st1
    else st

/-- The task download loop (syncService.ts lines 414-435): remote tasks
absent locally by id are inserted verbatim. -/
def taskDownloadAdds (localMap : List (String × Task)) (remotes : List Task) :
    List Task :=
  remotes.filter (fun r => !(jsHas localMap r.id))

/-- Initial accumulator of the task phase. -/
def taskState0 (w : World) : TaskLoopState :=
  { errors := [], trace := [ApiCall.getTasks]
    remoteStore := w.remoteTasks, fresh := w.fresh }

/-- The whole task upload loop (the idMapping is only read here, never
written, so it is passed as a fixed parameter). -/
def taskUploadLoop (env : Env) (w : World) : TaskLoopState :=
  w.localTasks.foldl
    (taskUploadStep env w.idMapping (buildTaskMap w.remoteTasks))
    (taskState0 w)

/-- The whole status reconciliation loop, run over the same local snapshot
against the same fetched remote index. -/
def taskStatusLoop (env : Env) (w : World) (st : TaskLoopState) : TaskLoopState :=
  w.localTasks.foldl (taskStatusStep env (buildTaskMap w.remoteTasks)) st

/-- syncTasks (syncService.ts lines 331-438). -/
def syncTasks (env : Env) (w : World) :
    World × List ApiCall × Except String (List String) :=
  if env.getTasksOk then
    let st2 := taskStatusLoop env w (taskUploadLoop env w)
    ({ w with
        localTasks := w.localTasks ++ taskDownloadAdds (buildTaskMap w.localTasks) w.remoteTasks
        remoteTasks := st2.remoteStore
        fresh := st2.fresh },
      st2.trace, Except.ok st2.errors)
  else (w, [ApiCall.getTasks], Except.error netErrMsg)

/-- The result returned from syncAll. -/
structure SyncResult where
  success : Bool
  message : Option String := none
deriving DecidableEq, Repr

/-- The world after the orchestrator publishes the syncing transition
(syncService.ts line 101): status becomes syncing, the error text is
cleared, lastSyncAt is kept. -/
def syncingWorld (w : World) : World :=
  { w with status := SyncStatus.syncing, errMsg := none }

/-- syncAll (syncService.ts lines 94-148): guard on authentication with no
state transition; transition to syncing; run the objective phase then the
task phase; aggregate the error lists; publish the final state with a
fresh lastSyncAt on the non-exception path, and on an exception keep
lastSyncAt while recording the exception message. -/
def syncAll (env : Env) (w : World) : World × List ApiCall × SyncResult :=
  if !env.isAuthenticated then
    (w, [], { success := false, message := some "Not authenticated" })
  else
    match syncObjectives env (syncingWorld w) with
    | (w2, tr1, Except.error msg) =>
      ({ w2 with status := SyncStatus.error, errMsg := some msg }, tr1,
        { success := false, message := some msg })
    | (w2, tr1, Except.ok errs1) =>
      match syncTasks env w2 with
      | (w3, tr2, Except.error msg) =>
        ({ w3 with status := SyncStatus.error, errMsg := some msg }, tr1 ++ tr2,
          { success := false, message := some msg })
      | (w3, tr2, Except.ok errs2) =>
        let errors := errs1 ++ errs2
        if errors.isEmpty then
          ({ w3 with
              status := SyncStatus.success
              lastSyncAt := some env.now
              errMsg := none }, tr1 ++ tr2,
            { success := true, message := none })
        else
          ({ w3 with
              status := SyncStatus.error
              lastSyncAt := some env.now
              errMsg := some (countErrMsg errors.length) }, tr1 ++ tr2,
            { success := false, message := some (countErrMsgResult errors.length) })

/-- The creation calls of a trace (createObjective and createTask). -/
def isCreateCall : ApiCall → Bool
  | ApiCall.createObjective _ => true
  | ApiCall.createTask _ => true
  | _ => false

/-- Filter a trace down to its creation calls. -/
def createCallsOf (tr : List ApiCall) : List ApiCall :=
  tr.filter isCreateCall

/-- Filter a trace down to its status-update calls. -/
def isUpdateCall : ApiCall → Bool
  | ApiCall.updateTask _ _ _ _ => true
  | _ => false

/-- The updateTask calls of a trace, in issuance order. -/
def updateCallsOf (tr : List ApiCall) : List ApiCall :=
  tr.filter isUpdateCall

/-- The keys of a modeled JS map, in entry order. -/
def jsKeys (m : List (String × α)) : List String :=
  m.map Prod.fst

/-! Lemmas about the JS map model. -/

theorem jsGet_nil (k : String) : jsGet ([] : List (String × α)) k = none := rfl

theorem jsGet_cons (p : String × α) (m : List (String × α)) (k : String) :
    jsGet (p :: m) k = if p.1 == k then some p.2 else jsGet m k := by
  cases hpk : (p.1 == k) <;> simp [jsGet, List.find?_cons, hpk]

theorem jsHas_cons (p : String × α) (m : List (String × α)) (k : String) :
    jsHas (p :: m) k = ((p.1 == k) || jsHas m k) := by
  simp [jsHas]

theorem jsHas_eq_false_iff (m : List (String × α)) (k : String) :
    jsHas m k = false ↔ ∀ p ∈ m, p.1 ≠ k := by
  simp [jsHas, List.any_eq_true]

theorem jsGet_eq_none_of_has_false (m : List (String × α)) (k : String)
    (h : jsHas m k = false) : jsGet m k = none := by
  rw [jsHas_eq_false_iff] at h
  simp only [jsGet, Option.map_eq_none']
  rw [List.find?_eq_none]
  intro p hp
  simpa using h p hp

theorem jsHas_eq_true_of_get_some (m : List (String × α)) (k : String) (v : α)
    (h : jsGet m k = some v) : jsHas m k = true := by
  cases hh : jsHas m k with
  | true => rfl
  | false => rw [jsGet_eq_none_of_has_false m k hh] at h; cases h

theorem jsGet_append (m₁ m₂ : List (String × α)) (k : String) :
    jsGet (m₁ ++ m₂) k = (jsGet m₁ k).or (jsGet m₂ k) := by
  simp [jsGet, List.find?_append, Option.or, Option.map]
  cases List.find? (fun p => p.1 == k) m₁ <;> simp

theorem jsGet_mapReplace (m : List (String × α)) (k k' : String) (v : α) :
    jsGet (m.map (fun p => if p.1 == k then (k, v) else p)) k' =
      if k == k' then (if jsHas m k then some v else none) else jsGet m k' := by
  induction m with
  | nil => by_cases hkk : k = k' <;> simp [jsGet, jsHas, hkk]
  | cons p m ih =>
    simp only [List.map_cons]
    by_cases hpk : p.1 = k
    · by_cases hkk : k = k'
      · subst hkk
        simp [hpk, jsGet_cons, jsHas_cons]
      · simp only [hpk, jsGet_cons, jsHas_cons, beq_self_eq_true, if_true, ih]
        have h1 : ((k, v).1 == k') = false := by simp [hkk]
        have h2 : (k == k') = false := by simp [hkk]
        simp [h1, h2, jsGet_cons, hpk]
    · have hp1 : (p.1 == k) = false := by simp [hpk]
      by_cases hpk' : p.1 = k'
      · by_cases hkk : k = k'
        · exact absurd (hkk ▸ hpk') hpk
        · have h2 : (k == k') = false := by simp [hkk]
          simp only [hp1, Bool.false_eq_true, if_false, jsGet_cons, h2]
          have hp2 : (p.1 == k') = true := by simp [hpk']
          simp [hp2]
      · have hp2 : (p.1 == k') = false := by simp [hpk']
        simp only [hp1, Bool.false_eq_true, if_false, jsGet_cons, hp2, jsHas_cons,
          Bool.false_or]
        exact ih

theorem jsGet_jsSet (m : List (String × α)) (k k' : String) (v : α) :
    jsGet (jsSet m k v) k' = if k == k' then some v else jsGet m k' := by
  unfold jsSet
  by_cases hm : jsHas m k
  · rw [if_pos (by simpa [jsHas] using hm)]
    rw [jsGet_mapReplace]
    simp [hm]
  · have hmf : jsHas m k = false := by simpa using hm
    rw [if_neg (by simp_all [jsHas])]
    rw [jsGet_append]
    by_cases hkk : k = k'
    · subst hkk
      rw [jsGet_eq_none_of_has_false m k hmf]
      simp [jsGet_cons]
    · have h2 : (k == k') = false := by simp [hkk]
      simp [h2, jsGet_cons, jsGet_nil, Option.or]
      cases jsGet m k' <;> simp

theorem jsGet_jsSet_self (m : List (String × α)) (k : String) (v : α) :
    jsGet (jsSet m k v) k = some v := by
  rw [jsGet_jsSet]; simp

theorem jsGet_jsSet_ne (m : List (String × α)) (k k' : String) (v : α)
    (h : k ≠ k') : jsGet (jsSet m k v) k' = jsGet m k' := by
  rw [jsGet_jsSet]; simp [h]

theorem entry_eq_of_keys_nodup (m : List (String × α)) (p q : String × α)
    (hnd : (jsKeys m).Nodup) (hp : p ∈ m) (hq : q ∈ m) (hk : p.1 = q.1) : p = q := by
  induction m with
  | nil => cases hp
  | cons r m ih =>
    rw [jsKeys, List.map_cons, List.nodup_cons] at hnd
    rcases List.mem_cons.mp hp with hp1 | hp1 <;>
      rcases List.mem_cons.mp hq with hq1 | hq1
    · rw [hp1, hq1]
    · exfalso
      apply hnd.1
      have h2 : q.1 ∈ m.map Prod.fst := List.mem_map_of_mem Prod.fst hq1
      have h3 : q.1 = r.1 := by rw [← hk, hp1]
      rw [h3] at h2
      exact h2
    · exfalso
      apply hnd.1
      have h2 : p.1 ∈ m.map Prod.fst := List.mem_map_of_mem Prod.fst hp1
      have h3 : p.1 = r.1 := by rw [hk, hq1]
      rw [h3] at h2
      exact h2
    · exact ih hnd.2 hp1 hq1

theorem jsGet_eq_some_entry (m : List (String × α)) (k : String) (v : α)
    (h : jsGet m k = some v) : ∃ q ∈ m, q.1 = k ∧ q.2 = v := by
  simp only [jsGet] at h
  rcases Option.map_eq_some'.mp h with ⟨q, hq, hv⟩
  exact ⟨q, List.mem_of_find?_eq_some hq, by simpa using List.find?_some hq, hv⟩

theorem jsSet_of_has (m : List (String × α)) (k : String) (v : α)
    (h : jsHas m k = true) :
    jsSet m k v = m.map (fun p => if p.1 == k then (k, v) else p) := by
  have h' : (m.any fun p => p.1 == k) = true := h
  unfold jsSet
  rw [if_pos h']

theorem jsSet_of_not_has (m : List (String × α)) (k : String) (v : α)
    (h : jsHas m k = false) : jsSet m k v = m ++ [(k, v)] := by
  have h' : (m.any fun p => p.1 == k) = false := h
  unfold jsSet
  rw [if_neg (by simp [h'])]

theorem jsSet_eq_self (m : List (String × α)) (k : String) (v : α)
    (hnd : (jsKeys m).Nodup) (hget : jsGet m k = some v) : jsSet m k v = m := by
  rcases jsGet_eq_some_entry m k v hget with ⟨q, hqm, hqk, hqv⟩
  rw [jsSet_of_has m k v (jsHas_eq_true_of_get_some m k v hget)]
  conv_rhs => rw [← List.map_id m]
  apply List.map_congr_left
  intro p hp
  by_cases hpk : p.1 = k
  · have : p = q := entry_eq_of_keys_nodup m p q hnd hp hqm (hpk.trans hqk.symm)
    simp [hpk, this, hqk.symm, hqv.symm]
  · simp [hpk]

theorem jsKeys_jsSet_of_has (m : List (String × α)) (k : String) (v : α)
    (h : jsHas m k = true) : jsKeys (jsSet m k v) = jsKeys m := by
  rw [jsSet_of_has m k v h]
  simp only [jsKeys, List.map_map]
  apply List.map_congr_left
  intro p _
  by_cases hpk : p.1 = k <;> simp [hpk]

theorem jsKeys_jsSet_of_not_has (m : List (String × α)) (k : String) (v : α)
    (h : jsHas m k = false) : jsKeys (jsSet m k v) = jsKeys m ++ [k] := by
  rw [jsSet_of_not_has m k v h]
  simp [jsKeys]

theorem jsKeys_nodup_jsSet (m : List (String × α)) (k : String) (v : α)
    (hnd : (jsKeys m).Nodup) : (jsKeys (jsSet m k v)).Nodup := by
  cases h : jsHas m k with
  | true => rw [jsKeys_jsSet_of_has m k v h]; exact hnd
  | false =>
    rw [jsKeys_jsSet_of_not_has m k v h]
    rw [jsHas_eq_false_iff] at h
    refine List.Nodup.append hnd (List.nodup_singleton k) ?_
    intro x hx hk
    rw [List.mem_singleton] at hk
    subst hk
    rcases List.mem_map.mp hx with ⟨p, hp, hpk⟩
    exact h p hp hpk

theorem jsApply_nil (m : List (String × α)) : jsApply m [] = m := rfl

theorem jsApply_cons (m : List (String × α)) (p : String × α) (l : List (String × α)) :
    jsApply m (p :: l) = jsApply (jsSet m p.1 p.2) l := rfl

theorem jsApply_append (m l₁ l₂ : List (String × α)) :
    jsApply m (l₁ ++ l₂) = jsApply (jsApply m l₁) l₂ :=
  List.foldl_append _ _ _ _

theorem jsGet_jsApply (l m : List (String × α)) (k : String) :
    jsGet (jsApply m l) k =
      ((l.reverse.find? (fun p => p.1 == k)).map Prod.snd).or (jsGet m k) := by
  induction l generalizing m with
  | nil => simp [jsApply, Option.or]
  | cons p l ih =>
    rw [jsApply_cons, ih]
    rw [List.reverse_cons, List.find?_append]
    cases hf : l.reverse.find? (fun p => p.1 == k) with
    | some q => simp [Option.or]
    | none =>
      simp only [Option.map_none', Option.none_or]
      rw [jsGet_jsSet]
      cases hpk : (p.1 == k) with
      | true =>
        have : (k == p.1) = true := by
          simp only [beq_iff_eq] at hpk ⊢; exact hpk.symm
        simp [List.find?_cons, hpk, this, Option.or]
      | false =>
        have : (k == p.1) = false := by
          simp only [beq_eq_false_iff_ne] at hpk ⊢; exact fun h => hpk h.symm
        have hb : (p.1 == k) = false := hpk
        simp only [List.find?_cons, hpk]
        rw [if_neg (by simp_all [hpk])]
        simp [Option.or]

theorem jsGet_jsOfList (l : List (String × α)) (k : String) :
    jsGet (jsOfList l) k = (l.reverse.find? (fun p => p.1 == k)).map Prod.snd := by
  rw [jsOfList, jsGet_jsApply]
  cases (l.reverse.find? (fun p => p.1 == k)).map Prod.snd <;> simp [jsGet, Option.or]

theorem jsGet_jsOfList_eq_none (l : List (String × α)) (k : String)
    (h : ∀ p ∈ l, p.1 ≠ k) : jsGet (jsOfList l) k = none := by
  rw [jsGet_jsOfList]
  have : l.reverse.find? (fun p => p.1 == k) = none := by
    rw [List.find?_eq_none]
    intro p hp
    simpa using h p (List.mem_reverse.mp hp)
  rw [this]; rfl

theorem jsGet_jsOfList_of_nodup (l : List (String × α)) (k : String) (v : α)
    (hnd : (l.map Prod.fst).Nodup) (hmem : (k, v) ∈ l) :
    jsGet (jsOfList l) k = some v := by
  rw [jsGet_jsOfList]
  have hrev : (k, v) ∈ l.reverse := List.mem_reverse.mpr hmem
  have hsome : (l.reverse.find? (fun p => p.1 == k)).isSome := by
    rw [List.find?_isSome]
    exact ⟨(k, v), hrev, by simp⟩
  rcases Option.isSome_iff_exists.mp hsome with ⟨q, hq⟩
  have hqmem : q ∈ l := List.mem_reverse.mp (List.mem_of_find?_eq_some hq)
  have hqk : q.1 = k := by simpa using List.find?_some hq
  have : q = (k, v) := by
    have hrevnd : (l.map Prod.fst).Nodup := hnd
    exact entry_eq_of_keys_nodup l q (k, v) hrevnd hqmem hmem (by simpa using hqk)
  rw [hq, this]
  rfl

theorem jsGet_jsApply_of_no_key (l m : List (String × α)) (k : String)
    (h : ∀ p ∈ l, p.1 ≠ k) : jsGet (jsApply m l) k = jsGet m k := by
  rw [jsGet_jsApply]
  have : l.reverse.find? (fun p => p.1 == k) = none := by
    rw [List.find?_eq_none]
    intro p hp
    simpa using h p (List.mem_reverse.mp hp)
  rw [this]; rfl

theorem jsGet_isSome_jsApply (l m : List (String × α)) (k : String)
    (h : (jsGet m k).isSome) : (jsGet (jsApply m l) k).isSome := by
  rw [jsGet_jsApply]
  cases (l.reverse.find? (fun p => p.1 == k)).map Prod.snd <;>
    simp_all [Option.or]

theorem jsApply_eq_self (l m : List (String × α))
    (hnd : (jsKeys m).Nodup) (h : ∀ p ∈ l, jsGet m p.1 = some p.2) :
    jsApply m l = m := by
  induction l with
  | nil => rfl
  | cons p l ih =>
    rw [jsApply_cons, jsSet_eq_self m p.1 p.2 hnd (h p (List.mem_cons_self p l))]
    exact ih (fun q hq => h q (List.mem_cons_of_mem p hq))

theorem jsHas_eq_isSome (m : List (String × α)) (k : String) :
    jsHas m k = (jsGet m k).isSome := by
  cases h : jsHas m k with
  | false => rw [jsGet_eq_none_of_has_false m k h]; rfl
  | true =>
    simp only [jsHas, List.any_eq_true] at h
    rcases h with ⟨p, hp, hpk⟩
    have hs : (m.find? (fun p => p.1 == k)).isSome := List.find?_isSome.mpr ⟨p, hp, hpk⟩
    simp only [jsGet]
    cases hf : m.find? (fun p => p.1 == k) with
    | none => rw [hf] at hs; cases hs
    | some q => rfl

theorem jsHas_jsOfList (l : List (String × α)) (k : String) :
    jsHas (jsOfList l) k = l.any (fun p => p.1 == k) := by
  rw [jsHas_eq_isSome, jsGet_jsOfList]
  cases hf : l.reverse.find? (fun p => p.1 == k) with
  | some q =>
    have hq := List.find?_some hf
    have : l.reverse.any (fun p => p.1 == k) = true :=
      List.any_eq_true.mpr ⟨q, List.mem_of_find?_eq_some hf, hq⟩
    rw [List.any_reverse] at this
    simp [this]
  | none =>
    rw [List.find?_eq_none] at hf
    have : l.any (fun p => p.1 == k) = false := by
      rw [← List.any_reverse]
      cases ha : l.reverse.any (fun p => p.1 == k) with
      | false => rfl
      | true =>
        rcases List.any_eq_true.mp ha with ⟨p, hp, hpk⟩
        exact absurd hpk (hf p hp)
    simp [this]

/-! Characterization of the by-lowercase-name remote index. -/

theorem buildRemoteByName_last_wins (objs : List Objective) (n : String) :
    jsGet (buildRemoteByName objs) n =
      objs.reverse.find? (fun o => jsToLower o.name == n) := by
  rw [buildRemoteByName, jsGet_jsOfList, ← List.map_reverse, List.find?_map]
  rw [Option.map_map]
  have : (Prod.snd ∘ fun o : Objective => (jsToLower o.name, o)) = id := rfl
  rw [this, Option.map_id]
  rfl

/-! Monotonicity of the idMapping: keys are never removed by any engine
operation (Map.set either overwrites in place or appends). -/

theorem jsGet_isSome_jsSet (m : List (String × α)) (k k' : String) (v : α)
    (h : (jsGet m k').isSome) : (jsGet (jsSet m k v) k').isSome := by
  rw [jsGet_jsSet]
  cases hkk : (k == k') <;> simp [h]

theorem mapChildrenByName_cons (idm : List (String × String)) (c : Child)
    (cs remotes : List Child) :
    mapChildrenByName idm (c :: cs) remotes =
      mapChildrenByName
        (match remotes.find? (fun rc => jsToLower rc.name == jsToLower c.name) with
          | some rc => jsSet idm c.id rc.id
          | none => idm) cs remotes := rfl

theorem mapChildrenByName_isSome (locals remotes : List Child)
    (idm : List (String × String)) (k : String)
    (h : (jsGet idm k).isSome) :
    (jsGet (mapChildrenByName idm locals remotes) k).isSome := by
  induction locals generalizing idm with
  | nil => exact h
  | cons c cs ih =>
    rw [mapChildrenByName_cons]
    cases hf : remotes.find? (fun rc => jsToLower rc.name == jsToLower c.name) with
    | none => simpa [hf] using ih idm h
    | some rc => simpa [hf] using ih _ (jsGet_isSome_jsSet idm c.id k rc.id h)

theorem mapPillarsAndRituals_isSome (idm : List (String × String))
    (lobj remote : Objective) (k : String) (h : (jsGet idm k).isSome) :
    (jsGet (mapPillarsAndRituals idm lobj remote) k).isSome :=
  mapChildrenByName_isSome _ _ _ _
    (mapChildrenByName_isSome _ _ _ _ (mapChildrenByName_isSome _ _ _ _ h))

theorem mapChildrenByName_get_ne (locals remotes : List Child)
    (idm : List (String × String)) (k : String)
    (h : ∀ c ∈ locals, c.id ≠ k) :
    jsGet (mapChildrenByName idm locals remotes) k = jsGet idm k := by
  induction locals generalizing idm with
  | nil => rfl
  | cons c cs ih =>
    rw [mapChildrenByName_cons]
    have hc : c.id ≠ k := h c (List.mem_cons_self c cs)
    have hcs : ∀ x ∈ cs, x.id ≠ k := fun x hx => h x (List.mem_cons_of_mem c hx)
    cases hf : remotes.find? (fun rc => jsToLower rc.name == jsToLower c.name) with
    | none => simpa [hf] using ih idm hcs
    | some rc =>
      simp only [hf]
      exact (ih _ hcs).trans (jsGet_jsSet_ne idm c.id k rc.id hc)

theorem mapPillarsAndRituals_get_ne (idm : List (String × String))
    (lobj remote : Objective) (k : String)
    (h : ∀ c ∈ lobj.pillars ++ lobj.metrics ++ lobj.rituals, c.id ≠ k) :
    jsGet (mapPillarsAndRituals idm lobj remote) k = jsGet idm k := by
  have hp : ∀ c ∈ lobj.pillars, c.id ≠ k := fun c hc =>
    h c (by simp [hc])
  have hm : ∀ c ∈ lobj.metrics, c.id ≠ k := fun c hc =>
    h c (by simp [hc])
  have hr : ∀ c ∈ lobj.rituals, c.id ≠ k := fun c hc =>
    h c (by simp [hc])
  unfold mapPillarsAndRituals
  rw [mapChildrenByName_get_ne _ _ _ _ hr, mapChildrenByName_get_ne _ _ _ _ hm,
    mapChildrenByName_get_ne _ _ _ _ hp]

theorem objUploadStep_idm_isSome (env : Env) (rm rbn : List (String × Objective))
    (st : ObjLoopState) (lobj : Objective) (k : String)
    (h : (jsGet st.idm k).isSome) :
    (jsGet (objUploadStep env rm rbn st lobj).idm k).isSome := by
  unfold objUploadStep
  cases h1 : jsGet rm lobj.id with
  | some remote =>
    simpa using mapPillarsAndRituals_isSome _ _ _ _ (jsGet_isSome_jsSet _ _ _ _ h)
  | none =>
    cases h2 : jsGet rbn (jsToLower lobj.name) with
    | some e =>
      simpa using mapPillarsAndRituals_isSome _ _ _ _ (jsGet_isSome_jsSet _ _ _ _ h)
    | none =>
      simp only []
      split
      · exact jsGet_isSome_jsApply _ _ _ (jsGet_isSome_jsSet _ _ _ _ h)
      · exact h

theorem foldl_objUploadStep_idm_isSome (env : Env)
    (rm rbn : List (String × Objective)) (ls : List Objective)
    (st : ObjLoopState) (k : String) (h : (jsGet st.idm k).isSome) :
    (jsGet ((ls.foldl (objUploadStep env rm rbn) st)).idm k).isSome := by
  induction ls generalizing st with
  | nil => exact h
  | cons l ls ih => exact ih _ (objUploadStep_idm_isSome env rm rbn st l k h)

theorem objDownloadLoop_idm_isSome (env : Env) (lm : List (String × Objective))
    (rs : List Objective) (st : DlState) (k : String)
    (h : (jsGet st.idm k).isSome) :
    (jsGet (objDownloadLoop env lm rs st).1.idm k).isSome := by
  induction rs generalizing st with
  | nil => exact h
  | cons r rest ih =>
    simp only [objDownloadLoop]
    split
    · exact ih st h
    · split
      · exact ih _ (jsGet_isSome_jsSet _ _ _ _ h)
      · simpa using h

theorem syncTasks_idMapping (env : Env) (w : World) :
    (syncTasks env w).1.idMapping = w.idMapping := by
  unfold syncTasks
  split <;> rfl

theorem syncObjectives_idm_isSome (env : Env) (w : World) (k : String)
    (h : (jsGet w.idMapping k).isSome) :
    (jsGet (syncObjectives env w).1.idMapping k).isSome := by
  unfold syncObjectives
  by_cases hg : env.getObjectivesOk
  · simp only [hg, if_true]
    have h1 : (jsGet (objUploadLoop env w).idm k).isSome :=
      foldl_objUploadStep_idm_isSome env _ _ w.localObjectives (objUploadState0 w) k h
    have h2 : (jsGet (objDownload env w (objUploadLoop env w)).1.idm k).isSome := by
      unfold objDownload
      exact objDownloadLoop_idm_isSome env _ _ _ k h1
    cases hm : (objDownload env w (objUploadLoop env w)).2 <;> simpa [hm] using h2
  · simp only [hg]
    simpa using h

/-! Reduction lemmas for the two phases on their non-exception paths. -/

theorem objDownloadLoop_no_throw (env : Env) (lm : List (String × Objective))
    (rs : List Objective) (st : DlState)
    (h : ∀ id, env.getObjectiveOk id = true) :
    (objDownloadLoop env lm rs st).2 = none := by
  induction rs generalizing st with
  | nil => rfl
  | cons r rest ih =>
    simp only [objDownloadLoop]
    split
    · exact ih st
    · rw [h r.id]
      simp only [if_true]
      exact ih _

theorem syncObjectives_eq_ok (env : Env) (w : World)
    (hg : env.getObjectivesOk = true) (h : ∀ id, env.getObjectiveOk id = true) :
    syncObjectives env w =
      ({ w with
          localObjectives :=
            w.localObjectives ++ (objDownload env w (objUploadLoop env w)).1.added
          remoteObjectives := (objUploadLoop env w).remoteStore
          idMapping := (objDownload env w (objUploadLoop env w)).1.idm
          fresh := (objUploadLoop env w).fresh },
        (objDownload env w (objUploadLoop env w)).1.trace,
        Except.ok (objUploadLoop env w).errors) := by
  have hnt : (objDownload env w (objUploadLoop env w)).2 = none := by
    unfold objDownload
    exact objDownloadLoop_no_throw env _ _ _ h
  simp only [syncObjectives, hg, if_true, hnt]

theorem syncObjectives_eq_fetch_fail (env : Env) (w : World)
    (hg : env.getObjectivesOk = false) :
    syncObjectives env w = (w, [ApiCall.getObjectives], Except.error netErrMsg) := by
  simp [syncObjectives, hg]

theorem syncTasks_eq_ok (env : Env) (w : World) (ht : env.getTasksOk = true) :
    syncTasks env w =
      ({ w with
          localTasks :=
            w.localTasks ++ taskDownloadAdds (buildTaskMap w.localTasks) w.remoteTasks
          remoteTasks := (taskStatusLoop env w (taskUploadLoop env w)).remoteStore
          fresh := (taskStatusLoop env w (taskUploadLoop env w)).fresh },
        (taskStatusLoop env w (taskUploadLoop env w)).trace,
        Except.ok (taskStatusLoop env w (taskUploadLoop env w)).errors) := by
  simp only [syncTasks, ht, if_true]

theorem syncObjectives_result_isOk (env : Env) (w : World)
    (hg : env.getObjectivesOk = true) (h : ∀ id, env.getObjectiveOk id = true) :
    (syncObjectives env w).2.2 = Except.ok (objUploadLoop env w).errors := by
  rw [syncObjectives_eq_ok env w hg h]

theorem syncTasks_result_isOk (env : Env) (w : World)
    (ht : env.getTasksOk = true) :
    (syncTasks env w).2.2 =
      Except.ok (taskStatusLoop env w (taskUploadLoop env w)).errors := by
  rw [syncTasks_eq_ok env w ht]

/-! Path lemmas for the orchestrator. -/

theorem syncAll_unauth (env : Env) (w : World)
    (ha : env.isAuthenticated = false) :
    syncAll env w =
      (w, [], { success := false, message := some "Not authenticated" }) := by
  simp [syncAll, ha]

theorem syncAll_objErr_path (env : Env) (w : World)
    (ha : env.isAuthenticated = true) (w2 : World) (tr1 : List ApiCall)
    (msg : String)
    (hobj : syncObjectives env (syncingWorld w) = (w2, tr1, Except.error msg)) :
    syncAll env w =
      ({ w2 with status := SyncStatus.error, errMsg := some msg }, tr1,
        { success := false, message := some msg }) := by
  simp only [syncAll, ha, Bool.not_true, Bool.false_eq_true, if_false, hobj]

theorem syncAll_taskErr_path (env : Env) (w : World)
    (ha : env.isAuthenticated = true) (w2 : World) (tr1 : List ApiCall)
    (errs1 : List String)
    (hobj : syncObjectives env (syncingWorld w) = (w2, tr1, Except.ok errs1))
    (w3 : World) (tr2 : List ApiCall) (msg : String)
    (htask : syncTasks env w2 = (w3, tr2, Except.error msg)) :
    syncAll env w =
      ({ w3 with status := SyncStatus.error, errMsg := some msg }, tr1 ++ tr2,
        { success := false, message := some msg }) := by
  simp only [syncAll, ha, Bool.not_true, Bool.false_eq_true, if_false, hobj, htask]

theorem syncAll_ok_path (env : Env) (w : World)
    (ha : env.isAuthenticated = true) (w2 : World) (tr1 : List ApiCall)
    (errs1 : List String)
    (hobj : syncObjectives env (syncingWorld w) = (w2, tr1, Except.ok errs1))
    (w3 : World) (tr2 : List ApiCall) (errs2 : List String)
    (htask : syncTasks env w2 = (w3, tr2, Except.ok errs2)) :
    syncAll env w =
      (if (errs1 ++ errs2).isEmpty then
        ({ w3 with
            status := SyncStatus.success
            lastSyncAt := some env.now
            errMsg := none }, tr1 ++ tr2, { success := true, message := none })
      else
        ({ w3 with
            status := SyncStatus.error
            lastSyncAt := some env.now
            errMsg := some (countErrMsg (errs1 ++ errs2).length) }, tr1 ++ tr2,
          { success := false
            message := some (countErrMsgResult (errs1 ++ errs2).length) })) := by
  simp only [syncAll, ha, Bool.not_true, Bool.false_eq_true, if_false, hobj, htask]

/-! Concrete scenarios used by the counterexamples and witnesses. -/

/-- An environment in which every call succeeds. -/
def okEnv : Env := {}

/-- Two remote objectives whose names are equal after lowercasing. -/
def dupO1 : Objective := { id := "b1", name := "Fit" }

/-- The later duplicate-named remote objective. -/
def dupO2 : Objective := { id := "b2", name := "fit" }

/-- A local objective whose name folds to the duplicated remote name. -/
def dupLocal : Objective := { id := "a", name := "FIT" }

/-- The duplicate-remote-name world. -/
def dupWorld : World :=
  { localObjectives := [dupLocal], remoteObjectives := [dupO1, dupO2] }

/-- C4.  The claim says the by-lowercase-name index keeps the FIRST entry
on duplicate names.  Counterexample: with remote objectives named "Fit"
then "fit", the index maps "fit" to the second entry, and a local
objective named "FIT" resolves to id b2, not b1: the Map constructor
overwrites on duplicate keys, so the last entry wins. -/
theorem C4_counterexample :
    jsGet (buildRemoteByName [dupO1, dupO2]) "fit" = some dupO2
    ∧ jsGet (syncObjectives okEnv dupWorld).1.idMapping "a" = some "b2"
    ∧ dupO2 ≠ dupO1 := by
  refine ⟨by decide, by decide, by decide⟩

/-- C4 (amended): on duplicate lowercased names the by-lowercase-name
index maps the name to the LAST such entry of the fetched remote list
(the Map constructor overwrites), so every name-based match resolves to
the last remote objective with that folded name. -/
theorem C4_last_entry_wins (objs : List Objective) (n : String) :
    jsGet (buildRemoteByName objs) n =
      objs.reverse.find? (fun o => jsToLower o.name == n) :=
  buildRemoteByName_last_wins objs n

/-- A world in which one pass registers a mapping entry. -/
def c3World : World :=
  { localObjectives := [{ id := "a", name := "A" }]
    remoteObjectives := [{ id := "a", name := "A" }] }

/-- C3.  The claim says the identity mapping is empty at the start of
every invocation of syncAll.  Counterexample: after one invocation the
module-level mapping holds the entry registered during that run, and
nothing clears it, so the next invocation begins with a non-empty
mapping. -/
theorem C3_counterexample :
    (syncAll okEnv c3World).1.idMapping = [("a", "a")]
    ∧ [("a", "a")] ≠ ([] : List (String × String)) :=
  ⟨by rfl, by decide⟩

/-- C3 (amended): the identity mapping is module-level state that
persists across invocations of syncAll: no entry is ever removed, so
every key mapped before an invocation is still mapped after it (matches
are re-derived and overwrite entries on each pass, but never cleared). -/
theorem C3_mapping_persists (env : Env) (w : World) (k : String)
    (h : (jsGet w.idMapping k).isSome) :
    (jsGet (syncAll env w).1.idMapping k).isSome := by
  by_cases ha : env.isAuthenticated
  · have h2 := syncObjectives_idm_isSome env (syncingWorld w) k h
    rcases hobj : syncObjectives env (syncingWorld w) with ⟨w2, tr1, res⟩
    rw [hobj] at h2
    cases res with
    | error msg =>
      rw [syncAll_objErr_path env w ha w2 tr1 msg hobj]
      simpa using h2
    | ok errs1 =>
      have h3 := syncTasks_idMapping env w2
      rcases htask : syncTasks env w2 with ⟨w3, tr2, res2⟩
      rw [htask] at h3
      have h3' : w3.idMapping = w2.idMapping := h3
      have h2' : (jsGet w2.idMapping k).isSome := h2
      cases res2 with
      | error msg =>
        rw [syncAll_taskErr_path env w ha w2 tr1 errs1 hobj w3 tr2 msg htask]
        simpa [h3'] using h2'
      | ok errs2 =>
        rw [syncAll_ok_path env w ha w2 tr1 errs1 hobj w3 tr2 errs2 htask]
        by_cases he : (errs1 ++ errs2).isEmpty <;> simp [he, h3', h2']
  · simp only [Bool.not_eq_true] at ha
    rw [syncAll_unauth env w ha]
    exact h

/-- A world whose module-level mapping already holds an entry when the
next invocation begins. -/
def c3PrevWorld : World := { idMapping := [("x", "y")] }

/-- Witness for C3 (amended) at a concrete input. -/
theorem C3_mapping_persists_witness :
    (jsGet (syncAll okEnv c3PrevWorld).1.idMapping "x").isSome :=
  C3_mapping_persists okEnv c3PrevWorld "x" (by rfl)

/-- A world with one local-only objective. -/
def soloLocalWorld : World :=
  { localObjectives := [{ id := "o1", name := "N" }] }

/-- An environment where objective creation fails, with a nonzero clock. -/
def failCreateEnv : Env := { createObjectiveOk := fun _ => false, now := 5 }

/-- C10.  The claim says lastSyncAt is updated only when the pass ends in
success and left unchanged on error.  Counterexample: a pass whose only
objective upload fails ends in state error, yet lastSyncAt is set to the
completion time (it was none before the pass). -/
theorem C10_counterexample :
    (syncAll failCreateEnv soloLocalWorld).1.status = SyncStatus.error
    ∧ (syncAll failCreateEnv soloLocalWorld).1.lastSyncAt = some 5
    ∧ soloLocalWorld.lastSyncAt = none :=
  ⟨by rfl, by rfl, by rfl⟩

/-- C10 (amended): lastSyncAt records the completion time of every pass
that finishes without an orchestration-level exception, on both the
success and the aggregated-error outcome; it is left unchanged (with
state error) only when the pass aborts with an exception. -/
theorem C10_lastSync_behavior (env : Env) (w : World) :
    (env.isAuthenticated = true → env.getObjectivesOk = true →
      env.getTasksOk = true → (∀ id, env.getObjectiveOk id = true) →
      (syncAll env w).1.lastSyncAt = some env.now)
    ∧ (env.isAuthenticated = true → env.getObjectivesOk = false →
      (syncAll env w).1.status = SyncStatus.error
      ∧ (syncAll env w).1.lastSyncAt = w.lastSyncAt) := by
  constructor
  · intro ha hg ht hdl
    rcases hobj0 : syncObjectives env (syncingWorld w) with ⟨w2, tr1, res1⟩
    have he1 := syncObjectives_result_isOk env (syncingWorld w) hg hdl
    rw [hobj0] at he1
    have he1' : res1 = Except.ok (objUploadLoop env (syncingWorld w)).errors := he1
    subst he1'
    rcases htask0 : syncTasks env w2 with ⟨w3, tr2, res2⟩
    have he2 := syncTasks_result_isOk env w2 ht
    rw [htask0] at he2
    have he2' : res2 =
        Except.ok (taskStatusLoop env w2 (taskUploadLoop env w2)).errors := he2
    subst he2'
    rw [syncAll_ok_path env w ha w2 tr1 _ hobj0 w3 tr2 _ htask0]
    by_cases he : ((objUploadLoop env (syncingWorld w)).errors ++
        (taskStatusLoop env w2 (taskUploadLoop env w2)).errors).isEmpty
    · rw [if_pos he]
    · rw [if_neg he]
  · intro ha hg
    have hobj := syncObjectives_eq_fetch_fail env (syncingWorld w) hg
    rw [syncAll_objErr_path env w ha _ _ _ hobj]
    exact ⟨rfl, rfl⟩

/-- Witness for C10 (amended) at a concrete input. -/
theorem C10_lastSync_behavior_witness :
    (syncAll failCreateEnv soloLocalWorld).1.lastSyncAt = some 5 :=
  (C10_lastSync_behavior failCreateEnv soloLocalWorld).1 rfl rfl rfl (fun _ => rfl)

/-! Trace decomposition lemmas for the task loops. -/

theorem updateCallsOf_append (a b : List ApiCall) :
    updateCallsOf (a ++ b) = updateCallsOf a ++ updateCallsOf b :=
  List.filter_append a b

theorem createCallsOf_append (a b : List ApiCall) :
    createCallsOf (a ++ b) = createCallsOf a ++ createCallsOf b :=
  List.filter_append a b

/-- Whether the status loop pushes an update for a local task: the task
is present in the fetched remote set and its translated status differs
from the remote one. -/
def statusPushNeeded (remoteMap : List (String × Task)) (t : Task) : Bool :=
  match jsGet remoteMap t.id with
  | some r => apiStatusOf t.status != r.status
  | none => false

/-- The update call the status loop issues for a local task: the
translated status together with the completion instant and skip reason. -/
def statusPushCall (t : Task) : ApiCall :=
  ApiCall.updateTask t.id (apiStatusOf t.status) t.completedAt t.skippedReason

theorem taskUploadStep_updateCalls (env : Env) (idm : List (String × String))
    (rm : List (String × Task)) (st : TaskLoopState) (lt : Task) :
    updateCallsOf (taskUploadStep env idm rm st lt).trace =
      updateCallsOf st.trace := by
  unfold taskUploadStep
  split
  · rfl
  · cases jsGet idm lt.objectiveId with
    | none => rfl
    | some soid =>
      simp only []
      split <;>
        simp [updateCallsOf_append, updateCallsOf, isUpdateCall, List.filter]

theorem foldl_taskUploadStep_updateCalls (env : Env)
    (idm : List (String × String)) (rm : List (String × Task))
    (ts : List Task) (st : TaskLoopState) :
    updateCallsOf ((ts.foldl (taskUploadStep env idm rm) st).trace) =
      updateCallsOf st.trace := by
  induction ts generalizing st with
  | nil => rfl
  | cons t ts ih =>
    rw [List.foldl_cons, ih, taskUploadStep_updateCalls]

theorem taskStatusStep_trace (env : Env) (rm : List (String × Task))
    (st : TaskLoopState) (lt : Task) :
    (taskStatusStep env rm st lt).trace =
      st.trace ++ (if statusPushNeeded rm lt then [statusPushCall lt] else []) := by
  unfold taskStatusStep statusPushNeeded statusPushCall
  cases hr : jsGet rm lt.id with
  | none => simp
  | some r =>
    cases hs : (apiStatusOf lt.status != r.status) with
    | false => simp [hs]
    | true =>
      simp only [hs, if_true]
      split <;> rfl

theorem taskStatusStep_errors (env : Env) (rm : List (String × Task))
    (st : TaskLoopState) (lt : Task) :
    (taskStatusStep env rm st lt).errors = st.errors := by
  unfold taskStatusStep
  cases jsGet rm lt.id with
  | none => rfl
  | some r =>
    simp only []
    split
    · split <;> rfl
    · rfl

theorem foldl_taskStatusStep_trace (env : Env) (rm : List (String × Task))
    (ts : List Task) (st : TaskLoopState) :
    ((ts.foldl (taskStatusStep env rm) st).trace) =
      st.trace ++ (ts.filter (statusPushNeeded rm)).map statusPushCall := by
  induction ts generalizing st with
  | nil => simp
  | cons t ts ih =>
    rw [List.foldl_cons, ih, taskStatusStep_trace, List.filter_cons]
    by_cases hp : statusPushNeeded rm t <;> simp [hp]

theorem foldl_taskStatusStep_errors (env : Env) (rm : List (String × Task))
    (ts : List Task) (st : TaskLoopState) :
    ((ts.foldl (taskStatusStep env rm) st).errors) = st.errors := by
  induction ts generalizing st with
  | nil => rfl
  | cons t ts ih => rw [List.foldl_cons, ih, taskStatusStep_errors]

/-- C9.  Confirmed: the status loop pushes exactly one updateTask call per
local task whose remote counterpart exists and whose translated status
differs, carrying the translated status (overdue mapped to pending), the
completion instant and the skip reason; and the translation never yields
the local-only overdue value, so overdue is never transmitted. -/
theorem C9_overdue_never_sent (env : Env) (w : World)
    (ht : env.getTasksOk = true) :
    updateCallsOf (syncTasks env w).2.1 =
      (w.localTasks.filter (statusPushNeeded (buildTaskMap w.remoteTasks))).map
        statusPushCall
    ∧ ∀ s : TaskStatus, apiStatusOf s ≠ TaskStatus.overdue := by
  constructor
  · rw [syncTasks_eq_ok env w ht]
    show updateCallsOf (taskStatusLoop env w (taskUploadLoop env w)).trace = _
    rw [taskStatusLoop, foldl_taskStatusStep_trace, updateCallsOf_append]
    rw [taskUploadLoop, foldl_taskUploadStep_updateCalls]
    have h1 : updateCallsOf (taskState0 w).trace = [] := rfl
    have h2 : updateCallsOf
        ((w.localTasks.filter (statusPushNeeded (buildTaskMap w.remoteTasks))).map
          statusPushCall) =
        (w.localTasks.filter (statusPushNeeded (buildTaskMap w.remoteTasks))).map
          statusPushCall := by
      apply List.filter_eq_self.mpr
      intro a ha
      rcases List.mem_map.mp ha with ⟨t, _, rfl⟩
      rfl
    rw [h1, h2]
    simp
  · intro s
    cases s <;> simp [apiStatusOf]

/-- A local task carrying the derived overdue status and completion data. -/
def c9Task : Task :=
  { id := "t1", objectiveId := "o", title := "T"
    status := TaskStatus.overdue, completedAt := some "c", skippedReason := some "r" }

/-- Its remote counterpart with a different status. -/
def c9Remote : Task :=
  { id := "t1", objectiveId := "o", title := "T", status := TaskStatus.completed }

/-- World for the status-push witness. -/
def c9World : World := { localTasks := [c9Task], remoteTasks := [c9Remote] }

/-- Witness for C9 at a concrete input. -/
theorem C9_overdue_never_sent_witness :
    okEnv.getTasksOk = true
    ∧ updateCallsOf (syncTasks okEnv c9World).2.1 =
        (c9World.localTasks.filter
          (statusPushNeeded (buildTaskMap c9World.remoteTasks))).map statusPushCall
    ∧ (∀ s : TaskStatus, apiStatusOf s ≠ TaskStatus.overdue) :=
  ⟨rfl, (C9_overdue_never_sent okEnv c9World rfl).1,
    (C9_overdue_never_sent okEnv c9World rfl).2⟩

/-! Deferral of tasks whose objective is unmapped. -/

theorem taskUploadStep_deferred (env : Env) (idm : List (String × String))
    (rm : List (String × Task)) (st : TaskLoopState) (t : Task)
    (h1 : jsHas rm t.id = false) (h2 : jsGet idm t.objectiveId = none) :
    taskUploadStep env idm rm st t = st := by
  unfold taskUploadStep
  rw [h1]
  simp [h2]

theorem taskStatusStep_absent (env : Env) (rm : List (String × Task))
    (st : TaskLoopState) (t : Task) (h : jsGet rm t.id = none) :
    taskStatusStep env rm st t = st := by
  unfold taskStatusStep
  rw [h]

/-- C7.  Confirmed: a local task absent from the remote set whose owning
objective has no mapping entry is deferred: the pass behaves exactly as
if the task were not in the local list at all, so no createTask call is
issued for it, no error is recorded for it, and the remote store is left
exactly as without it. -/
theorem C7_deferred_task (env : Env) (w : World) (t : Task) (l1 l2 : List Task)
    (hsplit : w.localTasks = l1 ++ t :: l2)
    (hrem : jsHas (buildTaskMap w.remoteTasks) t.id = false)
    (hmap : jsGet w.idMapping t.objectiveId = none) :
    (syncTasks env w).2.1 = (syncTasks env { w with localTasks := l1 ++ l2 }).2.1
    ∧ (syncTasks env w).2.2 = (syncTasks env { w with localTasks := l1 ++ l2 }).2.2
    ∧ (syncTasks env w).1.remoteTasks =
        (syncTasks env { w with localTasks := l1 ++ l2 }).1.remoteTasks := by
  by_cases ht : env.getTasksOk
  · rw [syncTasks_eq_ok env w ht, syncTasks_eq_ok env _ ht]
    have hup : taskUploadLoop env w =
        taskUploadLoop env { w with localTasks := l1 ++ l2 } := by
      unfold taskUploadLoop
      rw [hsplit]
      show (l1 ++ t :: l2).foldl
          (taskUploadStep env w.idMapping (buildTaskMap w.remoteTasks))
          (taskState0 w) = _
      rw [List.foldl_append, List.foldl_cons,
        taskUploadStep_deferred env _ _ _ t hrem hmap, ← List.foldl_append]
      rfl
    have hkey : taskStatusLoop env w (taskUploadLoop env w) =
        taskStatusLoop env { w with localTasks := l1 ++ l2 }
          (taskUploadLoop env { w with localTasks := l1 ++ l2 }) := by
      rw [← hup]
      unfold taskStatusLoop
      rw [hsplit]
      show (l1 ++ t :: l2).foldl
          (taskStatusStep env (buildTaskMap w.remoteTasks))
          (taskUploadLoop env w) = _
      rw [List.foldl_append, List.foldl_cons,
        taskStatusStep_absent env _ _ t
          (jsGet_eq_none_of_has_false _ _ hrem), ← List.foldl_append]
    refine ⟨?_, ?_, ?_⟩ <;> simp only [hkey]
  · have ht' : env.getTasksOk = false := by simpa using ht
    simp [syncTasks, ht']

/-- A task referencing an objective with no mapping entry. -/
def c7Task : Task := { id := "t9", objectiveId := "missing", title := "D" }

/-- World for the deferral witness. -/
def c7World : World := { localTasks := [c7Task] }

/-- Witness for C7 at a concrete input. -/
theorem C7_deferred_task_witness :
    (syncTasks okEnv c7World).2.1 =
      (syncTasks okEnv { c7World with localTasks := [] ++ [] }).2.1
    ∧ (syncTasks okEnv c7World).2.2 =
      (syncTasks okEnv { c7World with localTasks := [] ++ [] }).2.2
    ∧ (syncTasks okEnv c7World).1.remoteTasks =
      (syncTasks okEnv { c7World with localTasks := [] ++ [] }).1.remoteTasks :=
  C7_deferred_task okEnv c7World c7Task [] [] rfl rfl rfl

/-! Step equations for the objective download loop. -/

theorem jsOfList_singleton (p : String × α) : jsOfList [p] = [p] := rfl

theorem jsHas_nil (k : String) : jsHas ([] : List (String × α)) k = false := rfl

theorem objDownloadLoop_nil (env : Env) (lm : List (String × Objective))
    (st : DlState) : objDownloadLoop env lm [] st = (st, none) := rfl

theorem objDownloadLoop_cons (env : Env) (lm : List (String × Objective))
    (r : Objective) (rest : List Objective) (st : DlState) :
    objDownloadLoop env lm (r :: rest) st =
      if jsHas lm r.id then objDownloadLoop env lm rest st
      else if env.getObjectiveOk r.id then
        objDownloadLoop env lm rest
          { idm := jsSet st.idm r.id r.id
            trace := st.trace ++ [ApiCall.getObjective r.id]
            added := st.added ++ [r] }
      else ({ st with trace := st.trace ++ [ApiCall.getObjective r.id] },
        some netErrMsg) := rfl

theorem objDownloadLoop_cons_skip (env : Env) (lm : List (String × Objective))
    (r : Objective) (rest : List Objective) (st : DlState)
    (h : jsHas lm r.id = true) :
    objDownloadLoop env lm (r :: rest) st = objDownloadLoop env lm rest st := by
  rw [objDownloadLoop_cons]
  simp [h]

theorem objDownloadLoop_cons_dl (env : Env) (lm : List (String × Objective))
    (r : Objective) (rest : List Objective) (st : DlState)
    (h : jsHas lm r.id = false) (hok : env.getObjectiveOk r.id = true) :
    objDownloadLoop env lm (r :: rest) st =
      objDownloadLoop env lm rest
        { idm := jsSet st.idm r.id r.id
          trace := st.trace ++ [ApiCall.getObjective r.id]
          added := st.added ++ [r] } := by
  rw [objDownloadLoop_cons]
  simp [h, hok]

theorem objDownloadLoop_cons_fail (env : Env) (lm : List (String × Objective))
    (r : Objective) (rest : List Objective) (st : DlState)
    (h : jsHas lm r.id = false) (hok : env.getObjectiveOk r.id = false) :
    objDownloadLoop env lm (r :: rest) st =
      ({ st with trace := st.trace ++ [ApiCall.getObjective r.id] },
        some netErrMsg) := by
  rw [objDownloadLoop_cons]
  simp [h, hok]

/-- Local objective of the name-convergence scenario. -/
def c2L : Objective := { id := "a", name := "Fitness" }

/-- Remote objective of the name-convergence scenario. -/
def c2R : Objective := { id := "b", name := "fitness" }

/-- World of the name-convergence scenario. -/
def c2World : World := { localObjectives := [c2L], remoteObjectives := [c2R] }

/-- C2.  The claim asserts name convergence with NO duplicate created
remotely or locally.  Counterexample: with local Fitness (id a) and
remote fitness (id b), the pass does resolve a to b and issues no
createObjective call, but the download direction then materializes the
remote objective as a second local copy under id b (no local entity
carries id b), so a local duplicate IS inserted, refuting the claim's
no-local-duplicate conjunct. -/
theorem C2_counterexample :
    jsGet (syncObjectives okEnv c2World).1.idMapping "a" = some "b"
    ∧ createCallsOf (syncObjectives okEnv c2World).2.1 = []
    ∧ (syncObjectives okEnv c2World).1.localObjectives = [c2L, c2R]
    ∧ (syncObjectives okEnv c2World).1.localObjectives ≠ [c2L] := by
  refine ⟨by decide, by decide, by decide, by decide⟩

/-- C2 (amended): for a local objective L and a case-insensitively
same-named remote objective R with a different id, one pass registers
L.id to R.id and issues no creation call; but the remote objective,
having no local entity with its id, is additionally materialized as a
second local copy by the download direction. -/
theorem C2_name_convergence (env : Env) (L R : Objective)
    (hg : env.getObjectivesOk = true)
    (hd : env.getObjectiveOk R.id = true)
    (hid : L.id ≠ R.id)
    (hname : jsToLower R.name = jsToLower L.name)
    (hkids : ∀ c ∈ L.pillars ++ L.metrics ++ L.rituals, c.id ≠ L.id) :
    jsGet (syncObjectives env
      { localObjectives := [L], remoteObjectives := [R] }).1.idMapping L.id
        = some R.id
    ∧ createCallsOf (syncObjectives env
        { localObjectives := [L], remoteObjectives := [R] }).2.1 = []
    ∧ (syncObjectives env
        { localObjectives := [L], remoteObjectives := [R] }).1.localObjectives
        = [L, R] := by
  have hbne : (R.id == L.id) = false := beq_eq_false_iff_ne.mpr (fun h => hid h.symm)
  have hbne' : (L.id == R.id) = false := beq_eq_false_iff_ne.mpr hid
  have hrm : jsGet (buildObjMap [R]) L.id = none := by
    show jsGet (jsOfList [(R.id, R)]) L.id = none
    rw [jsOfList_singleton, jsGet_cons]
    simp [hbne, jsGet_nil]
  have hbn : jsGet (buildRemoteByName [R]) (jsToLower L.name) = some R := by
    show jsGet (jsOfList [(jsToLower R.name, R)]) (jsToLower L.name) = some R
    rw [jsOfList_singleton, jsGet_cons]
    simp [hname]
  have h1 : objUploadLoop env { localObjectives := [L], remoteObjectives := [R] } =
      objUploadStep env (buildObjMap [R]) (buildRemoteByName [R])
        (objUploadState0 { localObjectives := [L], remoteObjectives := [R] }) L := rfl
  have h2 : objUploadStep env (buildObjMap [R]) (buildRemoteByName [R])
      (objUploadState0 { localObjectives := [L], remoteObjectives := [R] }) L =
      { objUploadState0 { localObjectives := [L], remoteObjectives := [R] } with
          idm := mapPillarsAndRituals (jsSet [] L.id R.id) L R } := by
    unfold objUploadStep
    rw [hrm, hbn]
    rfl
  have hlm : jsHas (buildObjMap [L]) R.id = false := by
    show jsHas (jsOfList [(L.id, L)]) R.id = false
    rw [jsOfList_singleton, jsHas_cons]
    simp [hbne', jsHas_nil]
  have h3 : objDownload env { localObjectives := [L], remoteObjectives := [R] }
      (objUploadLoop env { localObjectives := [L], remoteObjectives := [R] }) =
      ({ idm := jsSet (mapPillarsAndRituals (jsSet [] L.id R.id) L R) R.id R.id
         trace := [ApiCall.getObjectives, ApiCall.getObjective R.id]
         added := [R] }, none) := by
    unfold objDownload
    rw [h1, h2]
    rw [objDownloadLoop_cons_dl env _ R [] _ hlm hd, objDownloadLoop_nil]
    rfl
  have hs : syncObjectives env { localObjectives := [L], remoteObjectives := [R] } =
      ({ ({ localObjectives := [L], remoteObjectives := [R] } : World) with
          localObjectives := [L] ++ [R]
          remoteObjectives := [R]
          idMapping := jsSet (mapPillarsAndRituals (jsSet [] L.id R.id) L R) R.id R.id
          fresh := 0 },
        [ApiCall.getObjectives, ApiCall.getObjective R.id], Except.ok []) := by
    simp only [syncObjectives, hg, if_true, h3]
    rw [h1, h2]
    rfl
  rw [hs]
  refine ⟨?_, by rfl, by rfl⟩
  show jsGet (jsSet (mapPillarsAndRituals (jsSet [] L.id R.id) L R) R.id R.id) L.id
      = some R.id
  rw [jsGet_jsSet_ne _ _ _ _ (fun h => hid h.symm)]
  rw [mapPillarsAndRituals_get_ne _ _ _ _ hkids]
  exact jsGet_jsSet_self [] L.id R.id

/-! Upload-branch equations and key lemmas for the all-or-nothing
mapping registration. -/

theorem jsGet_isSome_jsApply_of_mem (l m : List (String × String)) (k : String)
    (h : k ∈ l.map Prod.fst) : (jsGet (jsApply m l) k).isSome := by
  rw [jsGet_jsApply]
  cases hf : l.reverse.find? (fun p => p.1 == k) with
  | some q => simp [Option.or]
  | none =>
    exfalso
    rw [List.find?_eq_none] at hf
    rcases List.mem_map.mp h with ⟨p, hp, hpk⟩
    exact hf p (List.mem_reverse.mpr hp) (by simp [hpk])

theorem mintChildIds_keys (gen : Nat → String) (fresh : Nat) (cs : List Child) :
    ((mintChildIds gen fresh cs).1).map Prod.fst = cs.map Child.id := by
  induction cs generalizing fresh with
  | nil => rfl
  | cons c rest ih =>
    unfold mintChildIds
    by_cases hu : isValidUUID c.id <;> simp [hu, ih]

theorem planUpload_keys (env : Env) (fresh : Nat) (lobj : Objective) :
    ((planUpload env fresh lobj).pm ++ (planUpload env fresh lobj).mm
      ++ (planUpload env fresh lobj).rm).map Prod.fst
      = (lobj.pillars ++ lobj.metrics ++ lobj.rituals).map Child.id := by
  simp only [planUpload]
  simp only [List.map_append, mintChildIds_keys]

theorem objDownloadLoop_idm_get_ne (env : Env) (lm : List (String × Objective))
    (rs : List Objective) (st : DlState) (k : String)
    (h : ∀ r ∈ rs, r.id ≠ k) :
    jsGet (objDownloadLoop env lm rs st).1.idm k = jsGet st.idm k := by
  induction rs generalizing st with
  | nil => rfl
  | cons r rest ih =>
    have hr : r.id ≠ k := h r (List.mem_cons_self r rest)
    have hrest : ∀ x ∈ rest, x.id ≠ k := fun x hx => h x (List.mem_cons_of_mem r hx)
    rw [objDownloadLoop_cons]
    split
    · exact ih st hrest
    · split
      · rw [ih _ hrest]
        exact jsGet_jsSet_ne _ _ _ _ hr
      · rfl

theorem objUploadStep_upload_success (env : Env)
    (rm rbn : List (String × Objective)) (st : ObjLoopState) (lobj : Objective)
    (h1 : jsGet rm lobj.id = none)
    (h2 : jsGet rbn (jsToLower lobj.name) = none)
    (hc : env.createObjectiveOk (uploadPayload env st.fresh lobj) = true) :
    objUploadStep env rm rbn st lobj =
      { idm := jsApply (jsSet st.idm lobj.id (planUpload env st.fresh lobj).objectiveId)
          ((planUpload env st.fresh lobj).pm ++ (planUpload env st.fresh lobj).mm
            ++ (planUpload env st.fresh lobj).rm)
        errors := st.errors
        trace := st.trace ++ [ApiCall.createObjective (uploadPayload env st.fresh lobj)]
        remoteStore := st.remoteStore ++ [uploadPayload env st.fresh lobj]
        fresh := (planUpload env st.fresh lobj).fresh } := by
  have hc' : env.createObjectiveOk
      (buildPayload lobj (planUpload env st.fresh lobj).objectiveId
        (planUpload env st.fresh lobj).pm (planUpload env st.fresh lobj).mm
        (planUpload env st.fresh lobj).rm) = true := hc
  simp only [objUploadStep, h1, h2, hc', if_true]
  rfl

theorem objUploadStep_upload_fail (env : Env)
    (rm rbn : List (String × Objective)) (st : ObjLoopState) (lobj : Objective)
    (h1 : jsGet rm lobj.id = none)
    (h2 : jsGet rbn (jsToLower lobj.name) = none)
    (hc : env.createObjectiveOk (uploadPayload env st.fresh lobj) = false) :
    objUploadStep env rm rbn st lobj =
      { st with
        errors := st.errors ++ [failObjMsg lobj.name]
        trace := st.trace ++ [ApiCall.createObjective (uploadPayload env st.fresh lobj)]
        fresh := (planUpload env st.fresh lobj).fresh } := by
  have hc' : env.createObjectiveOk
      (buildPayload lobj (planUpload env st.fresh lobj).objectiveId
        (planUpload env st.fresh lobj).pm (planUpload env st.fresh lobj).mm
        (planUpload env st.fresh lobj).rm) = false := hc
  simp only [objUploadStep, h1, h2, hc', Bool.false_eq_true, if_false]
  rfl

/-- The world of the single-local-only-objective scenario. -/
def soloWorld (L : Objective) (R : List Objective) : World :=
  { localObjectives := [L], remoteObjectives := R }

/-- C5.  Confirmed: for a local-only objective (no id or name match), a
successful createObjective call registers mapping entries for the
objective and every one of its pillars, metrics and rituals, with no
error; a failed call records exactly the per-objective error and leaves
no mapping entry for the objective or any child. -/
theorem C5_all_or_nothing (env : Env) (L : Objective) (R : List Objective)
    (hg : env.getObjectivesOk = true)
    (hdl : ∀ id, env.getObjectiveOk id = true)
    (hid : ∀ r ∈ R, r.id ≠ L.id)
    (hname : ∀ r ∈ R, jsToLower r.name ≠ jsToLower L.name)
    (hcid : ∀ c ∈ L.pillars ++ L.metrics ++ L.rituals, ∀ r ∈ R, r.id ≠ c.id) :
    (env.createObjectiveOk (uploadPayload env 0 L) = true →
      (jsGet (syncObjectives env (soloWorld L R)).1.idMapping L.id).isSome
      ∧ (∀ c ∈ L.pillars ++ L.metrics ++ L.rituals,
          (jsGet (syncObjectives env (soloWorld L R)).1.idMapping c.id).isSome)
      ∧ (syncObjectives env (soloWorld L R)).2.2 = Except.ok [])
    ∧ (env.createObjectiveOk (uploadPayload env 0 L) = false →
      (syncObjectives env (soloWorld L R)).2.2 = Except.ok [failObjMsg L.name]
      ∧ jsGet (syncObjectives env (soloWorld L R)).1.idMapping L.id = none
      ∧ (∀ c ∈ L.pillars ++ L.metrics ++ L.rituals,
          jsGet (syncObjectives env (soloWorld L R)).1.idMapping c.id = none)) := by
  have hrm : jsGet (buildObjMap R) L.id = none := by
    apply jsGet_jsOfList_eq_none
    intro p hp
    rcases List.mem_map.mp hp with ⟨r, hr, rfl⟩
    exact hid r hr
  have hbn : jsGet (buildRemoteByName R) (jsToLower L.name) = none := by
    apply jsGet_jsOfList_eq_none
    intro p hp
    rcases List.mem_map.mp hp with ⟨r, hr, rfl⟩
    exact hname r hr
  have hloop : objUploadLoop env (soloWorld L R) =
      objUploadStep env (buildObjMap R) (buildRemoteByName R)
        (objUploadState0 (soloWorld L R)) L := rfl
  have hsync := syncObjectives_eq_ok env (soloWorld L R) hg hdl
  have hidm : (syncObjectives env (soloWorld L R)).1.idMapping =
      (objDownload env (soloWorld L R) (objUploadLoop env (soloWorld L R))).1.idm := by
    rw [hsync]
  have hres : (syncObjectives env (soloWorld L R)).2.2 =
      Except.ok (objUploadLoop env (soloWorld L R)).errors := by
    rw [hsync]
  clear hsync
  constructor
  · intro hc
    have hstep := objUploadStep_upload_success env (buildObjMap R) (buildRemoteByName R)
      (objUploadState0 (soloWorld L R)) L hrm hbn hc
    refine ⟨?_, ?_, ?_⟩
    · rw [hidm]
      unfold objDownload
      apply objDownloadLoop_idm_isSome
      show (jsGet (objUploadLoop env (soloWorld L R)).idm L.id).isSome
      rw [hloop, hstep]
      exact jsGet_isSome_jsApply _ _ _ (by rw [jsGet_jsSet_self]; rfl)
    · intro c hcmem
      rw [hidm]
      unfold objDownload
      apply objDownloadLoop_idm_isSome
      show (jsGet (objUploadLoop env (soloWorld L R)).idm c.id).isSome
      rw [hloop, hstep]
      apply jsGet_isSome_jsApply_of_mem
      rw [planUpload_keys]
      exact List.mem_map_of_mem Child.id hcmem
    · rw [hres, hloop, hstep]
      rfl
  · intro hc
    have hstep := objUploadStep_upload_fail env (buildObjMap R) (buildRemoteByName R)
      (objUploadState0 (soloWorld L R)) L hrm hbn hc
    refine ⟨?_, ?_, ?_⟩
    · rw [hres, hloop, hstep]
      rfl
    · rw [hidm]
      unfold objDownload
      rw [show (soloWorld L R).remoteObjectives = R from rfl]
      rw [objDownloadLoop_idm_get_ne env _ _ _ L.id hid]
      show jsGet (objUploadLoop env (soloWorld L R)).idm L.id = none
      rw [hloop, hstep]
      rfl
    · intro c hcmem
      rw [hidm]
      unfold objDownload
      rw [show (soloWorld L R).remoteObjectives = R from rfl]
      rw [objDownloadLoop_idm_get_ne env _ _ _ c.id (fun r hr => hcid c hcmem r hr)]
      show jsGet (objUploadLoop env (soloWorld L R)).idm c.id = none
      rw [hloop, hstep]
      rfl

/-- A local-only objective with one pillar, metric and ritual. -/
def c5L : Objective :=
  { id := "loc-obj", name := "Solo"
    pillars := [{ id := "p1", name := "P" }]
    metrics := [{ id := "m1", name := "M", pillarId := some "p1" }]
    rituals := [{ id := "r1", name := "Q", pillarId := some "p1" }] }

/-- Witness for C5 at a concrete input (successful creation). -/
theorem C5_all_or_nothing_witness :
    (jsGet (syncObjectives okEnv (soloWorld c5L [])).1.idMapping c5L.id).isSome
    ∧ (∀ c ∈ c5L.pillars ++ c5L.metrics ++ c5L.rituals,
        (jsGet (syncObjectives okEnv (soloWorld c5L [])).1.idMapping c.id).isSome)
    ∧ (syncObjectives okEnv (soloWorld c5L [])).2.2 = Except.ok [] :=
  (C5_all_or_nothing okEnv c5L [] rfl (fun _ => rfl)
    (by intro r hr; cases hr) (by intro r hr; cases hr)
    (by intro c _ r hr; cases hr)).1 rfl

/-! Failure propagation in the objective phase. -/

/-- The calls one iteration of the objective upload loop issues, as a
function of the incoming generator counter: nothing on an id or name
match, one creation call otherwise. -/
def objStepCalls (env : Env) (rm rbn : List (String × Objective))
    (fresh : Nat) (lobj : Objective) : List ApiCall :=
  match jsGet rm lobj.id with
  | some _ => []
  | none =>
    match jsGet rbn (jsToLower lobj.name) with
    | some _ => []
    | none => [ApiCall.createObjective (uploadPayload env fresh lobj)]

/-- The generator counter after one iteration of the upload loop. -/
def objStepFresh (env : Env) (rm rbn : List (String × Objective))
    (fresh : Nat) (lobj : Objective) : Nat :=
  match jsGet rm lobj.id with
  | some _ => fresh
  | none =>
    match jsGet rbn (jsToLower lobj.name) with
    | some _ => fresh
    | none => (planUpload env fresh lobj).fresh

theorem objUploadStep_trace (env : Env) (rm rbn : List (String × Objective))
    (st : ObjLoopState) (lobj : Objective) :
    (objUploadStep env rm rbn st lobj).trace =
      st.trace ++ objStepCalls env rm rbn st.fresh lobj := by
  unfold objUploadStep objStepCalls
  cases jsGet rm lobj.id with
  | some r => simp
  | none =>
    cases jsGet rbn (jsToLower lobj.name) with
    | some e => simp
    | none =>
      simp only []
      split <;> rfl

theorem objUploadStep_fresh (env : Env) (rm rbn : List (String × Objective))
    (st : ObjLoopState) (lobj : Objective) :
    (objUploadStep env rm rbn st lobj).fresh =
      objStepFresh env rm rbn st.fresh lobj := by
  unfold objUploadStep objStepFresh
  cases jsGet rm lobj.id with
  | some r => rfl
  | none =>
    cases jsGet rbn (jsToLower lobj.name) with
    | some e => rfl
    | none =>
      simp only []
      split <;> rfl

theorem foldl_objUploadStep_trace_indep (env : Env) (f g : Objective → Bool)
    (rm rbn : List (String × Objective)) (ls : List Objective)
    (st st' : ObjLoopState)
    (htr : st.trace = st'.trace) (hfr : st.fresh = st'.fresh) :
    (ls.foldl (objUploadStep { env with createObjectiveOk := f } rm rbn) st).trace =
    (ls.foldl (objUploadStep { env with createObjectiveOk := g } rm rbn) st').trace := by
  induction ls generalizing st st' with
  | nil => exact htr
  | cons l ls ih =>
    apply ih
    · rw [objUploadStep_trace, objUploadStep_trace, htr, hfr]
      rfl
    · rw [objUploadStep_fresh, objUploadStep_fresh, hfr]
      rfl

theorem objDownloadLoop_throws (env : Env) (lm : List (String × Objective))
    (rs : List Objective) (st : DlState)
    (h : ∃ r ∈ rs, jsHas lm r.id = false ∧ env.getObjectiveOk r.id = false) :
    (objDownloadLoop env lm rs st).2 = some netErrMsg := by
  induction rs generalizing st with
  | nil =>
    rcases h with ⟨r, hr, _⟩
    cases hr
  | cons r rest ih =>
    rcases h with ⟨q, hq, hq1, hq2⟩
    rcases List.mem_cons.mp hq with hh | hq'
    · subst hh
      cases hhead : jsHas lm q.id with
      | true =>
        rw [objDownloadLoop_cons_skip env lm q rest st hhead]
        rw [hq1] at hhead
        cases hhead
      | false =>
        rw [objDownloadLoop_cons_fail env lm q rest st hhead hq2]
    · rw [objDownloadLoop_cons]
      split
      · exact ih st ⟨q, hq', hq1, hq2⟩
      · split
        · exact ih _ ⟨q, hq', hq1, hq2⟩
        · rfl

/-- Remote-only objective whose detail fetch fails. -/
def c8B : Objective := { id := "b", name := "B" }

/-- Remote-only objective after the failing one. -/
def c8C : Objective := { id := "c", name := "C" }

/-- World of the failing-detail-fetch scenario. -/
def c8World : World := { remoteObjectives := [c8B, c8C] }

/-- Environment in which only the detail fetch of id b fails. -/
def c8Env : Env := { getObjectiveOk := fun id => id != "b" }

/-- C8.  The claim says every per-entity failure during the objective
phase, including detail-fetch failures in the download direction, is
converted to a per-entity error while the loop continues.
Counterexample: with two remote-only objectives b and c where fetching
b's detail fails, the phase aborts with an exception instead of
recording an error: no per-entity error list is produced, c is never
fetched or materialized, and the whole pass escalates to a failure. -/
theorem C8_counterexample :
    (syncObjectives c8Env c8World).2.2 = Except.error netErrMsg
    ∧ (syncObjectives c8Env c8World).1.localObjectives = []
    ∧ (ApiCall.getObjective "c") ∉ (syncObjectives c8Env c8World).2.1
    ∧ (syncAll c8Env c8World).1.status = SyncStatus.error
    ∧ (syncAll c8Env c8World).2.2.success = false := by
  refine ⟨by rfl, by decide, by decide, by decide, by decide⟩

/-- C8 (amended): createObjective failures are per-entity and non-fatal:
the phase still returns its collected error list, and the sequence of
calls it issues is unchanged by which creations fail (the loop continues
past a failing upload); but a failing detail fetch in the download
direction raises out of the loop and the phase aborts with an
exception. -/
theorem C8_failure_propagation (env : Env) (w : World) :
    ((∀ id, env.getObjectiveOk id = true) → env.getObjectivesOk = true →
      (syncObjectives env w).2.2 = Except.ok (objUploadLoop env w).errors)
    ∧ (∀ f g : Objective → Bool,
        (objUploadLoop { env with createObjectiveOk := f } w).trace =
        (objUploadLoop { env with createObjectiveOk := g } w).trace)
    ∧ (env.getObjectivesOk = true →
      (∃ r ∈ w.remoteObjectives, jsHas (buildObjMap w.localObjectives) r.id = false
        ∧ env.getObjectiveOk r.id = false) →
      (syncObjectives env w).2.2 = Except.error netErrMsg) := by
  refine ⟨?_, ?_, ?_⟩
  · intro hdl hg
    exact syncObjectives_result_isOk env w hg hdl
  · intro f g
    unfold objUploadLoop
    exact foldl_objUploadStep_trace_indep env f g _ _ w.localObjectives _ _ rfl rfl
  · intro hg hex
    have hthrow : (objDownload env w (objUploadLoop env w)).2 = some netErrMsg := by
      unfold objDownload
      exact objDownloadLoop_throws env _ _ _ hex
    simp only [syncObjectives, hg, if_true, hthrow]

/-- Witness for C8 (amended) at a concrete input. -/
theorem C8_failure_propagation_witness :
    (syncObjectives c8Env c8World).2.2 = Except.error netErrMsg :=
  (C8_failure_propagation c8Env c8World).2.2 rfl
    ⟨c8B, by decide, by decide, by decide⟩

/-! Independence of the pass outcome from status-push failures. -/

theorem syncTasks_eq_fetch_fail (env : Env) (w : World)
    (ht : env.getTasksOk = false) :
    syncTasks env w = (w, [ApiCall.getTasks], Except.error netErrMsg) := by
  simp [syncTasks, ht]

theorem syncTasks_result_updateIndep (env : Env) (f : String → Bool) (w : World) :
    (syncTasks { env with updateTaskOk := f } w).2.2 = (syncTasks env w).2.2 := by
  by_cases ht : env.getTasksOk
  · rw [syncTasks_eq_ok { env with updateTaskOk := f } w ht, syncTasks_eq_ok env w ht]
    have hup : taskUploadLoop { env with updateTaskOk := f } w = taskUploadLoop env w := rfl
    rw [hup]
    unfold taskStatusLoop
    rw [foldl_taskStatusStep_errors, foldl_taskStatusStep_errors]
  · have ht' : env.getTasksOk = false := by simpa using ht
    rw [syncTasks_eq_fetch_fail { env with updateTaskOk := f } w ht',
      syncTasks_eq_fetch_fail env w ht']

theorem objDownloadLoop_updateIndep (env : Env) (f : String → Bool)
    (lm : List (String × Objective)) (rs : List Objective) (st : DlState) :
    objDownloadLoop { env with updateTaskOk := f } lm rs st =
      objDownloadLoop env lm rs st := by
  induction rs generalizing st with
  | nil => rfl
  | cons r rest ih =>
    rw [objDownloadLoop_cons, objDownloadLoop_cons]
    have hok : ({ env with updateTaskOk := f } : Env).getObjectiveOk =
        env.getObjectiveOk := rfl
    rw [hok]
    split
    · exact ih st
    · split
      · exact ih _
      · rfl

theorem syncObjectives_updateIndep (env : Env) (f : String → Bool) (w : World) :
    syncObjectives { env with updateTaskOk := f } w = syncObjectives env w := by
  have h1 : objUploadStep { env with updateTaskOk := f } = objUploadStep env := by
    funext rm rbn st l
    rfl
  have hg : ({ env with updateTaskOk := f } : Env).getObjectivesOk =
      env.getObjectivesOk := rfl
  have h2 : objDownloadLoop { env with updateTaskOk := f } = objDownloadLoop env := by
    funext lm rs st
    exact objDownloadLoop_updateIndep env f lm rs st
  unfold syncObjectives objUploadLoop objDownload
  rw [h1, hg, h2]

/-- Local objective of the failing-creation syncAll scenario. -/
def c6L : Objective := { id := "only", name := "Lone" }

/-- Environment where the objective creation fails but everything else
succeeds. -/
def c6Env : Env := { createObjectiveOk := fun _ => false }

/-- C6.  Confirmed: the outcome of every updateTask call is invisible in
the aggregated result: changing which status pushes fail changes neither
the returned result nor the final state-machine status; whereas a failed
createObjective call for a local-only objective yields final state error
and success false. -/
theorem C6_asymmetric_failures (env : Env) (w : World) (L : Objective)
    (R : List Objective) :
    (∀ f : String → Bool,
      (syncAll { env with updateTaskOk := f } w).2.2 = (syncAll env w).2.2
      ∧ (syncAll { env with updateTaskOk := f } w).1.status = (syncAll env w).1.status)
    ∧ (env.isAuthenticated = true → env.getObjectivesOk = true →
      env.getTasksOk = true → (∀ id, env.getObjectiveOk id = true) →
      (∀ r ∈ R, r.id ≠ L.id) →
      (∀ r ∈ R, jsToLower r.name ≠ jsToLower L.name) →
      env.createObjectiveOk (uploadPayload env 0 L) = false →
      (syncAll env (soloWorld L R)).1.status = SyncStatus.error
      ∧ (syncAll env (soloWorld L R)).2.2.success = false) := by
  constructor
  · intro f
    by_cases ha : env.isAuthenticated
    · have ha' : ({ env with updateTaskOk := f } : Env).isAuthenticated = true := ha
      rcases hobj : syncObjectives env (syncingWorld w) with ⟨w2, tr1, res⟩
      have hobj' : syncObjectives { env with updateTaskOk := f } (syncingWorld w) =
          (w2, tr1, res) := by
        rw [syncObjectives_updateIndep]
        exact hobj
      cases res with
      | error msg =>
        rw [syncAll_objErr_path env w ha w2 tr1 msg hobj,
          syncAll_objErr_path { env with updateTaskOk := f } w ha' w2 tr1 msg hobj']
        exact ⟨rfl, rfl⟩
      | ok errs1 =>
        rcases htask : syncTasks env w2 with ⟨w3, tr2, res2⟩
        rcases htask' : syncTasks { env with updateTaskOk := f } w2
          with ⟨w3f, tr2f, res2f⟩
        have hres2 : res2f = res2 := by
          have hh := syncTasks_result_updateIndep env f w2
          rw [htask, htask'] at hh
          exact hh
        subst hres2
        cases res2f with
        | error msg =>
          rw [syncAll_taskErr_path env w ha w2 tr1 errs1 hobj w3 tr2 msg htask,
            syncAll_taskErr_path { env with updateTaskOk := f } w ha' w2 tr1 errs1
              hobj' w3f tr2f msg htask']
          exact ⟨rfl, rfl⟩
        | ok errs2 =>
          rw [syncAll_ok_path env w ha w2 tr1 errs1 hobj w3 tr2 errs2 htask,
            syncAll_ok_path { env with updateTaskOk := f } w ha' w2 tr1 errs1
              hobj' w3f tr2f errs2 htask']
          by_cases he : (errs1 ++ errs2).isEmpty <;> simp [he]
    · have ha2 : env.isAuthenticated = false := by simpa using ha
      rw [syncAll_unauth env w ha2,
        syncAll_unauth { env with updateTaskOk := f } w ha2]
      exact ⟨rfl, rfl⟩
  · intro ha hg ht hdl hid hname hc
    have hrm : jsGet (buildObjMap R) L.id = none := by
      apply jsGet_jsOfList_eq_none
      intro p hp
      rcases List.mem_map.mp hp with ⟨r, hr, rfl⟩
      exact hid r hr
    have hbn : jsGet (buildRemoteByName R) (jsToLower L.name) = none := by
      apply jsGet_jsOfList_eq_none
      intro p hp
      rcases List.mem_map.mp hp with ⟨r, hr, rfl⟩
      exact hname r hr
    have hloop : objUploadLoop env (syncingWorld (soloWorld L R)) =
        objUploadStep env (buildObjMap R) (buildRemoteByName R)
          (objUploadState0 (syncingWorld (soloWorld L R))) L := rfl
    have hcf : env.createObjectiveOk (uploadPayload env
        (objUploadState0 (syncingWorld (soloWorld L R))).fresh L) = false := hc
    have herr1 : (objUploadLoop env (syncingWorld (soloWorld L R))).errors =
        [failObjMsg L.name] := by
      rw [hloop, objUploadStep_upload_fail env _ _ _ L hrm hbn hcf]
      rfl
    have hobj := syncObjectives_eq_ok env (syncingWorld (soloWorld L R)) hg hdl
    rw [syncAll_ok_path env (soloWorld L R) ha _ _ _ hobj _ _ _
      (syncTasks_eq_ok env _ ht)]
    rw [if_neg ?hne]
    case hne =>
      rw [herr1]
      intro hcontra
      cases hcontra
    exact ⟨rfl, rfl⟩

/-- Witness for C6 at a concrete input. -/
theorem C6_asymmetric_failures_witness :
    (syncAll c6Env (soloWorld c6L [])).1.status = SyncStatus.error
    ∧ (syncAll c6Env (soloWorld c6L [])).2.2.success = false :=
  (C6_asymmetric_failures c6Env (soloWorld c6L []) c6L []).2 rfl rfl rfl
    (fun _ => rfl) (by intro r hr; cases hr) (by intro r hr; cases hr) rfl

/-- Witness for C2 (amended) at a concrete input. -/
theorem C2_name_convergence_witness :
    jsGet (syncObjectives okEnv
      { localObjectives := [c2L], remoteObjectives := [c2R] }).1.idMapping c2L.id
        = some c2R.id
    ∧ createCallsOf (syncObjectives okEnv
        { localObjectives := [c2L], remoteObjectives := [c2R] }).2.1 = []
    ∧ (syncObjectives okEnv
        { localObjectives := [c2L], remoteObjectives := [c2R] }).1.localObjectives
        = [c2L, c2R] :=
  C2_name_convergence okEnv c2L c2R rfl rfl (by decide) (by decide)
    (by intro c hc; cases hc)

/-! Idempotence analysis.  First the counterexample world: a local-only
objective whose id is not UUID-shaped. -/

/-- A local-only objective with a non-UUID local id. -/
def c1Obj : Objective := { id := "o1", name := "N" }

/-- World of the idempotence counterexample. -/
def c1World : World := { localObjectives := [c1Obj] }

/-- C1.  The claim says a second reconciliation pass with no external
changes issues zero creation calls and leaves the mapping unchanged.
Counterexample: a local-only objective with a non-UUID id is uploaded
under a freshly minted id in the first pass; the second pass re-matches
it by name (no creation call here), but the remote copy then has no
local entity under its minted id, so the second pass downloads it and
registers a new mapping entry: the identity mapping differs after the
second run. -/
theorem C1_counterexample :
    (syncAll okEnv c1World).1.idMapping = [("o1", "gen-0")]
    ∧ (syncAll okEnv (syncAll okEnv c1World).1).1.idMapping =
        [("o1", "gen-0"), ("gen-0", "gen-0")]
    ∧ (syncAll okEnv (syncAll okEnv c1World).1).1.idMapping ≠
        (syncAll okEnv c1World).1.idMapping := by
  refine ⟨by decide, by decide, by decide⟩

/-! Write-list characterization of the objective upload loop. -/

/-- The mapping writes one by-name child matching pass performs. -/
def childListWrites (locals remotes : List Child) : List (String × String) :=
  locals.filterMap (fun lc =>
    (remotes.find? (fun rc => jsToLower rc.name == jsToLower lc.name)).map
      (fun rc => (lc.id, rc.id)))

/-- The mapping writes mapPillarsAndRituals performs. -/
def childWrites (o r : Objective) : List (String × String) :=
  childListWrites o.pillars r.pillars ++ childListWrites o.metrics r.metrics
    ++ childListWrites o.rituals r.rituals

theorem mapChildrenByName_eq_jsApply (locals remotes : List Child)
    (idm : List (String × String)) :
    mapChildrenByName idm locals remotes =
      jsApply idm (childListWrites locals remotes) := by
  induction locals generalizing idm with
  | nil => rfl
  | cons c cs ih =>
    rw [mapChildrenByName_cons]
    unfold childListWrites
    rw [List.filterMap_cons]
    cases hf : remotes.find? (fun rc => jsToLower rc.name == jsToLower c.name) with
    | none =>
      simp only []
      exact ih idm
    | some rc =>
      simp only [Option.map_some']
      rw [jsApply_cons]
      exact ih _

theorem mapPillarsAndRituals_eq_jsApply (idm : List (String × String))
    (o r : Objective) :
    mapPillarsAndRituals idm o r = jsApply idm (childWrites o r) := by
  unfold mapPillarsAndRituals childWrites
  rw [mapChildrenByName_eq_jsApply, mapChildrenByName_eq_jsApply,
    mapChildrenByName_eq_jsApply, jsApply_append, jsApply_append]

/-- The mapping writes one iteration of the upload loop performs, as a
function of the incoming generator counter. -/
def objStepWrites (env : Env) (rm rbn : List (String × Objective))
    (fresh : Nat) (o : Objective) : List (String × String) :=
  match jsGet rm o.id with
  | some r => (o.id, o.id) :: childWrites o r
  | none =>
    match jsGet rbn (jsToLower o.name) with
    | some x => (o.id, x.id) :: childWrites o x
    | none =>
      (o.id, (planUpload env fresh o).objectiveId) ::
        ((planUpload env fresh o).pm ++ (planUpload env fresh o).mm
          ++ (planUpload env fresh o).rm)

theorem objUploadStep_idm_eq_jsApply (env : Env)
    (rm rbn : List (String × Objective)) (st : ObjLoopState) (o : Objective)
    (hc : ∀ p, env.createObjectiveOk p = true) :
    (objUploadStep env rm rbn st o).idm =
      jsApply st.idm (objStepWrites env rm rbn st.fresh o) := by
  unfold objUploadStep objStepWrites
  cases jsGet rm o.id with
  | some r =>
    simp only []
    rw [jsApply_cons, mapPillarsAndRituals_eq_jsApply]
  | none =>
    cases jsGet rbn (jsToLower o.name) with
    | some x =>
      simp only []
      rw [jsApply_cons, mapPillarsAndRituals_eq_jsApply]
    | none =>
      simp only [hc, if_true]
      rw [jsApply_cons]

/-- All mapping writes of the upload loop over a local list, threading
the generator counter. -/
def objWritesAll (env : Env) (rm rbn : List (String × Objective))
    (fresh : Nat) : List Objective → List (String × String)
  | [] => []
  | o :: rest =>
    objStepWrites env rm rbn fresh o ++
      objWritesAll env rm rbn (objStepFresh env rm rbn fresh o) rest

theorem foldl_objUploadStep_idm (env : Env)
    (rm rbn : List (String × Objective)) (ls : List Objective)
    (st : ObjLoopState) (hc : ∀ p, env.createObjectiveOk p = true) :
    (ls.foldl (objUploadStep env rm rbn) st).idm =
      jsApply st.idm (objWritesAll env rm rbn st.fresh ls) := by
  induction ls generalizing st with
  | nil => rfl
  | cons o rest ih =>
    rw [List.foldl_cons, ih, objWritesAll, jsApply_append,
      objUploadStep_idm_eq_jsApply env rm rbn st o hc, objUploadStep_fresh]

theorem objUploadStep_errors_ok (env : Env)
    (rm rbn : List (String × Objective)) (st : ObjLoopState) (o : Objective)
    (hc : ∀ p, env.createObjectiveOk p = true) :
    (objUploadStep env rm rbn st o).errors = st.errors := by
  unfold objUploadStep
  cases jsGet rm o.id with
  | some r => rfl
  | none =>
    cases jsGet rbn (jsToLower o.name) with
    | some x => rfl
    | none => simp [hc]

theorem foldl_objUploadStep_errors_ok (env : Env)
    (rm rbn : List (String × Objective)) (ls : List Objective)
    (st : ObjLoopState) (hc : ∀ p, env.createObjectiveOk p = true) :
    (ls.foldl (objUploadStep env rm rbn) st).errors = st.errors := by
  induction ls generalizing st with
  | nil => rfl
  | cons o rest ih =>
    rw [List.foldl_cons, ih, objUploadStep_errors_ok env rm rbn st o hc]

/-- The payloads the upload loop submits, threading the counter. -/
def objPayloadsAll (env : Env) (rm rbn : List (String × Objective))
    (fresh : Nat) : List Objective → List Objective
  | [] => []
  | o :: rest =>
    (match jsGet rm o.id with
      | some _ => []
      | none =>
        match jsGet rbn (jsToLower o.name) with
        | some _ => []
        | none => [uploadPayload env fresh o]) ++
      objPayloadsAll env rm rbn (objStepFresh env rm rbn fresh o) rest

theorem objUploadStep_store (env : Env)
    (rm rbn : List (String × Objective)) (st : ObjLoopState) (o : Objective)
    (hc : ∀ p, env.createObjectiveOk p = true) :
    (objUploadStep env rm rbn st o).remoteStore =
      st.remoteStore ++
        (match jsGet rm o.id with
          | some _ => []
          | none =>
            match jsGet rbn (jsToLower o.name) with
            | some _ => []
            | none => [uploadPayload env st.fresh o]) := by
  unfold objUploadStep
  cases jsGet rm o.id with
  | some r => simp
  | none =>
    cases jsGet rbn (jsToLower o.name) with
    | some x => simp
    | none =>
      simp only [hc, if_true]
      rfl

theorem foldl_objUploadStep_store (env : Env)
    (rm rbn : List (String × Objective)) (ls : List Objective)
    (st : ObjLoopState) (hc : ∀ p, env.createObjectiveOk p = true) :
    (ls.foldl (objUploadStep env rm rbn) st).remoteStore =
      st.remoteStore ++ objPayloadsAll env rm rbn st.fresh ls := by
  induction ls generalizing st with
  | nil => simp [objPayloadsAll]
  | cons o rest ih =>
    rw [List.foldl_cons, ih, objPayloadsAll,
      objUploadStep_store env rm rbn st o hc, objUploadStep_fresh,
      List.append_assoc]

/-! Key discipline of the write lists. -/

/-- The ids of all children of an objective. -/
def childIds (o : Objective) : List String :=
  (o.pillars ++ o.metrics ++ o.rituals).map Child.id

/-- The mapping keys one local objective can ever write. -/
def blocksOf : List Objective → List String
  | [] => []
  | o :: rest => (o.id :: childIds o) ++ blocksOf rest

theorem childListWrites_keys_sublist (ls rs : List Child) :
    ((childListWrites ls rs).map Prod.fst).Sublist (ls.map Child.id) := by
  induction ls with
  | nil => exact List.Sublist.refl _
  | cons c cs ih =>
    unfold childListWrites
    rw [List.filterMap_cons]
    cases hf : rs.find? (fun rc => jsToLower rc.name == jsToLower c.name) with
    | none =>
      simp only [List.map_cons]
      exact List.Sublist.cons c.id ih
    | some rc =>
      simp only [Option.map_some', List.map_cons]
      exact List.Sublist.cons₂ c.id ih

theorem childWrites_keys_sublist (o r : Objective) :
    ((childWrites o r).map Prod.fst).Sublist (childIds o) := by
  unfold childWrites childIds
  rw [List.map_append, List.map_append, List.map_append, List.map_append]
  exact List.Sublist.append
    (List.Sublist.append
      (childListWrites_keys_sublist o.pillars r.pillars)
      (childListWrites_keys_sublist o.metrics r.metrics))
    (childListWrites_keys_sublist o.rituals r.rituals)

theorem objStepWrites_keys_sublist (env : Env)
    (rm rbn : List (String × Objective)) (fresh : Nat) (o : Objective) :
    ((objStepWrites env rm rbn fresh o).map Prod.fst).Sublist
      (o.id :: childIds o) := by
  unfold objStepWrites
  cases jsGet rm o.id with
  | some r =>
    simp only [List.map_cons]
    exact List.Sublist.cons₂ o.id (childWrites_keys_sublist o r)
  | none =>
    cases jsGet rbn (jsToLower o.name) with
    | some x =>
      simp only [List.map_cons]
      exact List.Sublist.cons₂ o.id (childWrites_keys_sublist o x)
    | none =>
      simp only [List.map_cons]
      rw [planUpload_keys]
      exact List.Sublist.cons₂ o.id (List.Sublist.refl _)

theorem objWritesAll_keys_sublist (env : Env)
    (rm rbn : List (String × Objective)) (fresh : Nat) (ls : List Objective) :
    ((objWritesAll env rm rbn fresh ls).map Prod.fst).Sublist (blocksOf ls) := by
  induction ls generalizing fresh with
  | nil => exact List.Sublist.refl _
  | cons o rest ih =>
    unfold objWritesAll blocksOf
    rw [List.map_append]
    exact List.Sublist.append (objStepWrites_keys_sublist env rm rbn fresh o)
      (ih _)

theorem jsGet_jsApply_of_nodup (l m : List (String × String)) (k v : String)
    (hnd : (l.map Prod.fst).Nodup) (hmem : (k, v) ∈ l) :
    jsGet (jsApply m l) k = some v := by
  rw [jsGet_jsApply]
  have hrev : (k, v) ∈ l.reverse := List.mem_reverse.mpr hmem
  have hsome : (l.reverse.find? (fun p => p.1 == k)).isSome := by
    rw [List.find?_isSome]
    exact ⟨(k, v), hrev, by simp⟩
  rcases Option.isSome_iff_exists.mp hsome with ⟨q, hq⟩
  have hqmem : q ∈ l := List.mem_reverse.mp (List.mem_of_find?_eq_some hq)
  have hqk0 := List.find?_some hq
  have hqk : q.1 = k := by simpa using hqk0
  have : q = (k, v) :=
    entry_eq_of_keys_nodup l q (k, v) hnd hqmem hmem (by simpa using hqk)
  rw [hq, this]
  rfl

theorem jsGet_jsOfList_append (a b : List (String × α)) (k : String) :
    jsGet (jsOfList (a ++ b)) k =
      (jsGet (jsOfList b) k).or (jsGet (jsOfList a) k) := by
  rw [jsGet_jsOfList, jsGet_jsOfList, jsGet_jsOfList, List.reverse_append,
    List.find?_append]
  cases b.reverse.find? (fun p => p.1 == k) <;> simp [Option.or]

/-- Existence of a local objective's own write block (and payload when it
is uploaded) inside the loop-wide lists, at that objective's counter. -/
theorem run1_block (env : Env) (rm rbn : List (String × Objective))
    (ls : List Objective) (fresh : Nat) (o : Objective) (ho : o ∈ ls) :
    ∃ f, (∀ x ∈ objStepWrites env rm rbn f o,
        x ∈ objWritesAll env rm rbn fresh ls)
      ∧ (jsGet rm o.id = none → jsGet rbn (jsToLower o.name) = none →
          uploadPayload env f o ∈ objPayloadsAll env rm rbn fresh ls) := by
  induction ls generalizing fresh with
  | nil => cases ho
  | cons l rest ih =>
    rcases List.mem_cons.mp ho with hh | ho'
    · subst hh
      refine ⟨fresh, ?_, ?_⟩
      · intro x hx
        unfold objWritesAll
        exact List.mem_append_left _ hx
      · intro h1 h2
        unfold objPayloadsAll
        rw [h1, h2]
        simp only []
        exact List.mem_append_left _ (List.mem_singleton.mpr rfl)
    · rcases ih (objStepFresh env rm rbn fresh l) ho' with ⟨f, hw, hp⟩
      refine ⟨f, ?_, ?_⟩
      · intro x hx
        unfold objWritesAll
        exact List.mem_append_right _ (hw x hx)
      · intro h1 h2
        unfold objPayloadsAll
        exact List.mem_append_right _ (hp h1 h2)

theorem uploadPayload_name (env : Env) (fresh : Nat) (o : Objective) :
    (uploadPayload env fresh o).name = o.name := rfl

theorem uploadPayload_id_of_uuid (env : Env) (fresh : Nat) (o : Objective)
    (h : isValidUUID o.id = true) : (uploadPayload env fresh o).id = o.id := by
  unfold uploadPayload buildPayload planUpload
  simp [h]

/-- Every submitted payload comes from a local-only objective (matched
neither by id nor by name), at some counter value. -/
theorem objPayloadsAll_mem (env : Env) (rm rbn : List (String × Objective))
    (fresh : Nat) (ls : List Objective) (p : Objective)
    (hp : p ∈ objPayloadsAll env rm rbn fresh ls) :
    ∃ u ∈ ls, ∃ f, p = uploadPayload env f u
      ∧ jsGet rm u.id = none ∧ jsGet rbn (jsToLower u.name) = none := by
  induction ls generalizing fresh with
  | nil => cases hp
  | cons l rest ih =>
    unfold objPayloadsAll at hp
    rcases List.mem_append.mp hp with hp1 | hp1
    · cases h1 : jsGet rm l.id with
      | some r => rw [h1] at hp1; cases hp1
      | none =>
        cases h2 : jsGet rbn (jsToLower l.name) with
        | some x => rw [h1, h2] at hp1; cases hp1
        | none =>
          rw [h1, h2] at hp1
          simp only [List.mem_singleton] at hp1
          exact ⟨l, List.mem_cons_self l rest, fresh, hp1, h1, h2⟩
    · rcases ih _ hp1 with ⟨u, hu, f, hf⟩
      exact ⟨u, List.mem_cons_of_mem l hu, f, hf⟩

theorem objPayloadsAll_ids_sublist (env : Env)
    (rm rbn : List (String × Objective)) (fresh : Nat) (ls : List Objective)
    (hu : ∀ o ∈ ls, isValidUUID o.id = true) :
    ((objPayloadsAll env rm rbn fresh ls).map Objective.id).Sublist
      (ls.map Objective.id) := by
  induction ls generalizing fresh with
  | nil => exact List.Sublist.refl _
  | cons l rest ih =>
    unfold objPayloadsAll
    rw [List.map_append, List.map_cons]
    have htail := ih (objStepFresh env rm rbn fresh l)
      (fun o hoo => hu o (List.mem_cons_of_mem l hoo))
    cases h1 : jsGet rm l.id with
    | some r =>
      simp only [List.map_nil, List.nil_append]
      exact List.Sublist.cons l.id htail
    | none =>
      cases h2 : jsGet rbn (jsToLower l.name) with
      | some x =>
        simp only [List.map_nil, List.nil_append]
        exact List.Sublist.cons l.id htail
      | none =>
        simp only [List.map_cons, List.map_nil]
        rw [uploadPayload_id_of_uuid env fresh l (hu l (List.mem_cons_self l rest))]
        exact List.Sublist.cons₂ l.id htail

/-! Positional child matching against a freshly built payload. -/

theorem childListWrites_cons_remote_skip (cs : List Child) (r : Child)
    (rs : List Child) (h : ∀ c ∈ cs, jsToLower r.name ≠ jsToLower c.name) :
    childListWrites cs (r :: rs) = childListWrites cs rs := by
  induction cs with
  | nil => rfl
  | cons c cs' ih =>
    have hr : (jsToLower r.name == jsToLower c.name) = false := by
      simp only [beq_eq_false_iff_ne, ne_eq]
      exact h c (List.mem_cons_self c cs')
    have htail : childListWrites cs' (r :: rs) = childListWrites cs' rs :=
      ih (fun x hx => h x (List.mem_cons_of_mem c hx))
    unfold childListWrites at htail ⊢
    rw [List.filterMap_cons, List.filterMap_cons]
    simp only [List.find?_cons, hr]
    cases hf : rs.find? (fun rc => jsToLower rc.name == jsToLower c.name) with
    | none => simpa [hf] using htail
    | some rc => simpa [hf] using htail

theorem childListWrites_payload (g : Child → (String × String) → Child)
    (hg1 : ∀ c q, (g c q).name = c.name)
    (hg2 : ∀ c q, (g c q).id = q.2)
    (cs : List Child) (ms : List (String × String))
    (hk : ms.map Prod.fst = cs.map Child.id)
    (hnd : (cs.map (fun c => jsToLower c.name)).Nodup) :
    childListWrites cs (List.zipWith g cs ms) = ms := by
  induction cs generalizing ms with
  | nil =>
    cases ms with
    | nil => rfl
    | cons q ms' => cases hk
  | cons c cs' ih =>
    cases ms with
    | nil => cases hk
    | cons q ms' =>
      rw [List.map_cons, List.map_cons] at hk
      have hk1 : q.1 = c.id := (List.cons.injEq _ _ _ _).mp hk |>.1
      have hk2 : ms'.map Prod.fst = cs'.map Child.id :=
        (List.cons.injEq _ _ _ _).mp hk |>.2
      rw [List.map_cons, List.nodup_cons] at hnd
      rw [List.zipWith_cons_cons]
      have hh : (jsToLower (g c q).name == jsToLower c.name) = true := by
        rw [hg1]
        simp
      have hskip : childListWrites cs' (g c q :: List.zipWith g cs' ms') =
          childListWrites cs' (List.zipWith g cs' ms') := by
        apply childListWrites_cons_remote_skip
        intro x hx
        rw [hg1]
        intro hcontra
        exact hnd.1 (hcontra ▸ List.mem_map_of_mem (fun c => jsToLower c.name) hx)
      have htail : childListWrites cs' (List.zipWith g cs' ms') = ms' :=
        ih ms' hk2 hnd.2
      have hq : (c.id, (g c q).id) = q := by
        rw [hg2]
        rw [← hk1]
      have hfind : List.find? (fun rc => jsToLower rc.name == jsToLower c.name)
          (g c q :: List.zipWith g cs' ms') = some (g c q) :=
        List.find?_cons_of_pos _ hh
      have hfc : (List.find? (fun rc => jsToLower rc.name == jsToLower c.name)
          (g c q :: List.zipWith g cs' ms')).map (fun rc => (c.id, rc.id)) = some q := by
        rw [hfind, Option.map_some', hq]
      have hthis : List.filterMap (fun lc =>
          (List.find? (fun rc => jsToLower rc.name == jsToLower lc.name)
            (g c q :: List.zipWith g cs' ms')).map (fun rc => (lc.id, rc.id))) cs' =
          childListWrites cs' (g c q :: List.zipWith g cs' ms') := rfl
      show List.filterMap _ (c :: cs') = q :: ms'
      rw [show List.filterMap (fun lc =>
          (List.find? (fun rc => jsToLower rc.name == jsToLower lc.name)
            (g c q :: List.zipWith g cs' ms')).map (fun rc => (lc.id, rc.id)))
          (c :: cs') =
          q :: List.filterMap (fun lc =>
          (List.find? (fun rc => jsToLower rc.name == jsToLower lc.name)
            (g c q :: List.zipWith g cs' ms')).map (fun rc => (lc.id, rc.id))) cs'
        from List.filterMap_cons_some hfc, hthis, hskip, htail]

/-! Lookup lemmas for the run-two indexes. -/

theorem jsGet_jsOfList_some (l : List (String × α)) (k : String) (v : α)
    (h : jsGet (jsOfList l) k = some v) : ∃ q ∈ l, q.1 = k ∧ q.2 = v := by
  rw [jsGet_jsOfList] at h
  rcases Option.map_eq_some'.mp h with ⟨q, hq, hv⟩
  refine ⟨q, List.mem_reverse.mp (List.mem_of_find?_eq_some hq), ?_, hv⟩
  simpa using List.find?_some hq

theorem buildObjMap_get_some (xs : List Objective) (k : String) (r : Objective)
    (h : jsGet (buildObjMap xs) k = some r) : r ∈ xs ∧ r.id = k := by
  rcases jsGet_jsOfList_some _ _ _ h with ⟨q, hq, hqk, hqv⟩
  rcases List.mem_map.mp hq with ⟨o, ho, rfl⟩
  rw [← hqv]
  exact ⟨ho, hqk⟩

theorem buildRemoteByName_get_some (xs : List Objective) (n : String)
    (x : Objective) (h : jsGet (buildRemoteByName xs) n = some x) :
    x ∈ xs ∧ jsToLower x.name = n := by
  rcases jsGet_jsOfList_some _ _ _ h with ⟨q, hq, hqk, hqv⟩
  rcases List.mem_map.mp hq with ⟨o, ho, rfl⟩
  rw [← hqv]
  exact ⟨ho, hqk⟩

theorem buildObjMap_get_none (xs : List Objective) (k : String)
    (h : ∀ x ∈ xs, x.id ≠ k) : jsGet (buildObjMap xs) k = none := by
  apply jsGet_jsOfList_eq_none
  intro p hp
  rcases List.mem_map.mp hp with ⟨o, ho, rfl⟩
  exact h o ho

theorem buildObjMap_append_left (xs ys : List Objective) (k : String)
    (h : ∀ y ∈ ys, y.id ≠ k) :
    jsGet (buildObjMap (xs ++ ys)) k = jsGet (buildObjMap xs) k := by
  unfold buildObjMap
  rw [List.map_append, jsGet_jsOfList_append]
  rw [show jsGet (jsOfList (ys.map (fun o => (o.id, o)))) k = none from
    jsGet_jsOfList_eq_none _ _ (by
      intro p hp
      rcases List.mem_map.mp hp with ⟨o, ho, rfl⟩
      exact h o ho)]
  cases jsGet (jsOfList (xs.map (fun o => (o.id, o)))) k <;> rfl

theorem buildObjMap_append_right (xs ys : List Objective) (k : String)
    (y : Objective) (hy : y ∈ ys) (hid : y.id = k)
    (hnd : (ys.map Objective.id).Nodup) :
    jsGet (buildObjMap (xs ++ ys)) k = some y := by
  unfold buildObjMap
  rw [List.map_append, jsGet_jsOfList_append]
  have hkey : ((ys.map (fun o => (o.id, o))).map Prod.fst).Nodup := by
    rw [List.map_map]
    exact hnd
  have hmem : (k, y) ∈ ys.map (fun o => (o.id, o)) := by
    rw [← hid]
    exact List.mem_map_of_mem (fun o => (o.id, o)) hy
  rw [jsGet_jsOfList_of_nodup _ _ _ hkey hmem]
  rfl

theorem buildRemoteByName_append_left (xs ys : List Objective) (n : String)
    (h : ∀ y ∈ ys, jsToLower y.name ≠ n) :
    jsGet (buildRemoteByName (xs ++ ys)) n = jsGet (buildRemoteByName xs) n := by
  unfold buildRemoteByName
  rw [List.map_append, jsGet_jsOfList_append]
  rw [show jsGet (jsOfList (ys.map (fun o => (jsToLower o.name, o)))) n = none from
    jsGet_jsOfList_eq_none _ _ (by
      intro p hp
      rcases List.mem_map.mp hp with ⟨o, ho, rfl⟩
      exact h o ho)]
  cases jsGet (jsOfList (xs.map (fun o => (jsToLower o.name, o)))) n <;> rfl

/-! Run-two analysis: small helper facts. -/

theorem blocksOf_ids_sublist (ls : List Objective) :
    (ls.map Objective.id).Sublist (blocksOf ls) := by
  induction ls with
  | nil => exact List.Sublist.refl _
  | cons o rest ih =>
    show (o.id :: rest.map Objective.id).Sublist
      ((o.id :: childIds o) ++ blocksOf rest)
    exact List.Sublist.cons₂ o.id
      (ih.trans (List.sublist_append_right (childIds o) (blocksOf rest)))

theorem jsKeys_nodup_jsApply (m l : List (String × α))
    (h : (jsKeys m).Nodup) : (jsKeys (jsApply m l)).Nodup := by
  induction l generalizing m with
  | nil => exact h
  | cons p l ih =>
    rw [jsApply_cons]
    exact ih _ (jsKeys_nodup_jsSet m p.1 p.2 h)

theorem objDownloadLoop_all_present (env : Env) (lm : List (String × Objective))
    (rs : List Objective) (st : DlState)
    (h : ∀ r ∈ rs, jsHas lm r.id = true) :
    objDownloadLoop env lm rs st = (st, none) := by
  induction rs generalizing st with
  | nil => rfl
  | cons r rest ih =>
    rw [objDownloadLoop_cons_skip env lm r rest st (h r (List.mem_cons_self r rest))]
    exact ih st (fun x hx => h x (List.mem_cons_of_mem r hx))

theorem any_map_comp (f : α → β) (l : List α) (p : β → Bool) :
    (l.map f).any p = l.any (fun a => p (f a)) := by
  induction l with
  | nil => rfl
  | cons a l ih => simp [List.any_cons, ih]

theorem jsHas_buildObjMap_of_mem (xs : List Objective) (k : String)
    (h : k ∈ xs.map Objective.id) : jsHas (buildObjMap xs) k = true := by
  rw [buildObjMap, jsHas_jsOfList, any_map_comp]
  rcases List.mem_map.mp h with ⟨o, ho, rfl⟩
  exact List.any_eq_true.mpr ⟨o, ho, by simp⟩

theorem jsHas_buildTaskMap_eq_any (ts : List Task) (k : String) :
    jsHas (buildTaskMap ts) k = ts.any (fun t => t.id == k) := by
  rw [buildTaskMap, jsHas_jsOfList, any_map_comp]

theorem jsHas_buildTaskMap_of_mem (ts : List Task) (k : String)
    (h : k ∈ ts.map Task.id) : jsHas (buildTaskMap ts) k = true := by
  rw [jsHas_buildTaskMap_eq_any]
  rcases List.mem_map.mp h with ⟨t, ht, rfl⟩
  exact List.any_eq_true.mpr ⟨t, ht, by simp⟩

theorem mem_ids_of_buildTaskMap_has (ts : List Task) (k : String)
    (h : jsHas (buildTaskMap ts) k = true) : k ∈ ts.map Task.id := by
  rw [jsHas_buildTaskMap_eq_any] at h
  rcases List.any_eq_true.mp h with ⟨t, ht, htk⟩
  exact List.mem_map.mpr ⟨t, ht, by simpa using htk⟩

theorem planUpload_pm_keys (env : Env) (fresh : Nat) (o : Objective) :
    ((planUpload env fresh o).pm).map Prod.fst = o.pillars.map Child.id :=
  mintChildIds_keys env.genId (if isValidUUID o.id then fresh else fresh + 1)
    o.pillars

theorem planUpload_mm_keys (env : Env) (fresh : Nat) (o : Objective) :
    ((planUpload env fresh o).mm).map Prod.fst = o.metrics.map Child.id :=
  mintChildIds_keys env.genId
    (mintChildIds env.genId (if isValidUUID o.id then fresh else fresh + 1)
      o.pillars).2 o.metrics

theorem planUpload_rm_keys (env : Env) (fresh : Nat) (o : Objective) :
    ((planUpload env fresh o).rm).map Prod.fst = o.rituals.map Child.id :=
  mintChildIds_keys env.genId
    (mintChildIds env.genId
      (mintChildIds env.genId (if isValidUUID o.id then fresh else fresh + 1)
        o.pillars).2 o.metrics).2 o.rituals

theorem planUpload_oid_of_uuid (env : Env) (fresh : Nat) (o : Objective)
    (h : isValidUUID o.id = true) :
    (planUpload env fresh o).objectiveId = o.id := by
  simp [planUpload, h]

theorem childWrites_uploadPayload (env : Env) (f : Nat) (o : Objective)
    (h1 : (o.pillars.map (fun c => jsToLower c.name)).Nodup)
    (h2 : (o.metrics.map (fun c => jsToLower c.name)).Nodup)
    (h3 : (o.rituals.map (fun c => jsToLower c.name)).Nodup) :
    childWrites o (uploadPayload env f o) =
      (planUpload env f o).pm ++ (planUpload env f o).mm
        ++ (planUpload env f o).rm := by
  unfold childWrites
  rw [show (uploadPayload env f o).pillars =
      List.zipWith (fun (c : Child) (q : String × String) =>
        ({ id := q.2, name := c.name, pillarId := none } : Child))
        o.pillars (planUpload env f o).pm from rfl]
  rw [show (uploadPayload env f o).metrics =
      List.zipWith (fun (c : Child) (q : String × String) =>
        ({ id := q.2, name := c.name,
           pillarId := c.pillarId.bind (fun pid =>
             (((planUpload env f o).pm).find? (fun t => t.1 == pid)).map
               (fun t => t.2)) } : Child))
        o.metrics (planUpload env f o).mm from rfl]
  rw [show (uploadPayload env f o).rituals =
      List.zipWith (fun (c : Child) (q : String × String) =>
        ({ id := q.2, name := c.name,
           pillarId := c.pillarId.bind (fun pid =>
             (((planUpload env f o).pm).find? (fun t => t.1 == pid)).map
               (fun t => t.2)) } : Child))
        o.rituals (planUpload env f o).rm from rfl]
  rw [childListWrites_payload
      (fun (c : Child) (q : String × String) =>
        ({ id := q.2, name := c.name, pillarId := none } : Child))
      (fun c q => rfl) (fun c q => rfl) o.pillars _
      (planUpload_pm_keys env f o) h1,
    childListWrites_payload
      (fun (c : Child) (q : String × String) =>
        ({ id := q.2, name := c.name,
           pillarId := c.pillarId.bind (fun pid =>
             (((planUpload env f o).pm).find? (fun t => t.1 == pid)).map
               (fun t => t.2)) } : Child))
      (fun c q => rfl) (fun c q => rfl) o.metrics _
      (planUpload_mm_keys env f o) h2,
    childListWrites_payload
      (fun (c : Child) (q : String × String) =>
        ({ id := q.2, name := c.name,
           pillarId := c.pillarId.bind (fun pid =>
             (((planUpload env f o).pm).find? (fun t => t.1 == pid)).map
               (fun t => t.2)) } : Child))
      (fun c q => rfl) (fun c q => rfl) o.rituals _
      (planUpload_rm_keys env f o) h3]

/-- Run-two behaviour of the upload step for one local objective, against
the remote list as the first run left it: the objective is matched (by id
or by name), and every mapping write the step performs already appears
among the first run's writes. -/
theorem run2_step (env : Env) (R ls : List Objective) (fresh : Nat)
    (hids : ∀ o ∈ ls, isValidUUID o.id = true)
    (hlsnd : (ls.map Objective.id).Nodup)
    (hN : (ls.map (fun o => jsToLower o.name)).Nodup)
    (hCN : ∀ o ∈ ls, ((o.pillars.map (fun c => jsToLower c.name)).Nodup
      ∧ (o.metrics.map (fun c => jsToLower c.name)).Nodup
      ∧ (o.rituals.map (fun c => jsToLower c.name)).Nodup))
    (o : Objective) (ho : o ∈ ls) (f2 : Nat) :
    ((jsGet (buildObjMap (R ++ objPayloadsAll env (buildObjMap R)
        (buildRemoteByName R) fresh ls)) o.id).isSome
      ∨ (jsGet (buildRemoteByName (R ++ objPayloadsAll env (buildObjMap R)
          (buildRemoteByName R) fresh ls)) (jsToLower o.name)).isSome)
    ∧ ∀ x ∈ objStepWrites env
        (buildObjMap (R ++ objPayloadsAll env (buildObjMap R)
          (buildRemoteByName R) fresh ls))
        (buildRemoteByName (R ++ objPayloadsAll env (buildObjMap R)
          (buildRemoteByName R) fresh ls)) f2 o,
        x ∈ objWritesAll env (buildObjMap R) (buildRemoteByName R) fresh ls := by
  set rm := buildObjMap R with hrm
  set rbn := buildRemoteByName R with hrbn
  set P := objPayloadsAll env rm rbn fresh ls with hPdef
  obtain ⟨f, hw, hp⟩ := run1_block env rm rbn ls fresh o ho
  have hpay : ∀ p ∈ P, ∃ u ∈ ls, ∃ f', p = uploadPayload env f' u
      ∧ jsGet rm u.id = none ∧ jsGet rbn (jsToLower u.name) = none :=
    fun p hp' => objPayloadsAll_mem env rm rbn fresh ls p hp'
  cases h1 : jsGet rm o.id with
  | some r =>
    have hPid : ∀ p ∈ P, p.id ≠ o.id := by
      intro p hmem
      rcases hpay p hmem with ⟨u, hu, f', rfl, hu1, hu2⟩
      rw [uploadPayload_id_of_uuid env f' u (hids u hu)]
      intro hequ
      have hue : u = o := List.inj_on_of_nodup_map hlsnd hu ho hequ
      rw [hue, h1] at hu1
      cases hu1
    have hA : jsGet (buildObjMap (R ++ P)) o.id = some r := by
      rw [buildObjMap_append_left R P o.id hPid, ← hrm, h1]
    have hstep2 : objStepWrites env (buildObjMap (R ++ P))
        (buildRemoteByName (R ++ P)) f2 o = (o.id, o.id) :: childWrites o r := by
      unfold objStepWrites
      rw [hA]
    have hstep1 : objStepWrites env rm rbn f o =
        (o.id, o.id) :: childWrites o r := by
      unfold objStepWrites
      rw [h1]
    constructor
    · left
      rw [hA]
      rfl
    · intro x hx
      rw [hstep2] at hx
      exact hw x (by rw [hstep1]; exact hx)
  | none =>
    cases h2 : jsGet rbn (jsToLower o.name) with
    | some x0 =>
      have hPid : ∀ p ∈ P, p.id ≠ o.id := by
        intro p hmem
        rcases hpay p hmem with ⟨u, hu, f', rfl, hu1, hu2⟩
        rw [uploadPayload_id_of_uuid env f' u (hids u hu)]
        intro hequ
        have hue : u = o := List.inj_on_of_nodup_map hlsnd hu ho hequ
        rw [hue, h2] at hu2
        cases hu2
      have hPname : ∀ p ∈ P, jsToLower p.name ≠ jsToLower o.name := by
        intro p hmem
        rcases hpay p hmem with ⟨u, hu, f', rfl, hu1, hu2⟩
        rw [uploadPayload_name]
        intro hequ
        have hue : u = o := List.inj_on_of_nodup_map hN hu ho hequ
        rw [hue, h2] at hu2
        cases hu2
      have hA : jsGet (buildObjMap (R ++ P)) o.id = none := by
        rw [buildObjMap_append_left R P o.id hPid, ← hrm, h1]
      have hB : jsGet (buildRemoteByName (R ++ P)) (jsToLower o.name) = some x0 := by
        rw [buildRemoteByName_append_left R P (jsToLower o.name) hPname, ← hrbn, h2]
      have hstep2 : objStepWrites env (buildObjMap (R ++ P))
          (buildRemoteByName (R ++ P)) f2 o =
          (o.id, x0.id) :: childWrites o x0 := by
        unfold objStepWrites
        rw [hA, hB]
      have hstep1 : objStepWrites env rm rbn f o =
          (o.id, x0.id) :: childWrites o x0 := by
        unfold objStepWrites
        rw [h1, h2]
      constructor
      · right
        rw [hB]
        rfl
      · intro x hx
        rw [hstep2] at hx
        exact hw x (by rw [hstep1]; exact hx)
    | none =>
      have hPnd : (P.map Objective.id).Nodup :=
        hlsnd.sublist (objPayloadsAll_ids_sublist env rm rbn fresh ls hids)
      have hpO : uploadPayload env f o ∈ P := hp h1 h2
      have hpOid : (uploadPayload env f o).id = o.id :=
        uploadPayload_id_of_uuid env f o (hids o ho)
      have hA : jsGet (buildObjMap (R ++ P)) o.id =
          some (uploadPayload env f o) :=
        buildObjMap_append_right R P o.id (uploadPayload env f o) hpO hpOid hPnd
      rcases hCN o ho with ⟨hc1, hc2, hc3⟩
      have hcw : childWrites o (uploadPayload env f o) =
          (planUpload env f o).pm ++ (planUpload env f o).mm
            ++ (planUpload env f o).rm :=
        childWrites_uploadPayload env f o hc1 hc2 hc3
      have hstep2 : objStepWrites env (buildObjMap (R ++ P))
          (buildRemoteByName (R ++ P)) f2 o =
          (o.id, o.id) :: childWrites o (uploadPayload env f o) := by
        unfold objStepWrites
        rw [hA]
      have hstep1 : objStepWrites env rm rbn f o =
          (o.id, (planUpload env f o).objectiveId) ::
            ((planUpload env f o).pm ++ (planUpload env f o).mm
              ++ (planUpload env f o).rm) := by
        unfold objStepWrites
        rw [h1, h2]
      have hstep1' : objStepWrites env rm rbn f o =
          (o.id, o.id) :: childWrites o (uploadPayload env f o) := by
        rw [hstep1, planUpload_oid_of_uuid env f o (hids o ho), hcw]
      constructor
      · left
        rw [hA]
        rfl
      · intro x hx
        rw [hstep2] at hx
        exact hw x (by rw [hstep1']; exact hx)

/-- If every local objective is matched against an index pair, the loop
submits no payload. -/
theorem objPayloadsAll_nil_of_matched (env : Env)
    (rmx rbnx : List (String × Objective)) (ts : List Objective)
    (h : ∀ o ∈ ts, (jsGet rmx o.id).isSome ∨ (jsGet rbnx (jsToLower o.name)).isSome) :
    ∀ f, objPayloadsAll env rmx rbnx f ts = [] := by
  induction ts with
  | nil => intro f; rfl
  | cons o rest ih =>
    intro f
    have ho := h o (List.mem_cons_self o rest)
    have htail := ih (fun x hx => h x (List.mem_cons_of_mem o hx))
    unfold objPayloadsAll
    rw [htail, List.append_nil]
    cases h1 : jsGet rmx o.id with
    | some r => rfl
    | none =>
      cases h2 : jsGet rbnx (jsToLower o.name) with
      | some x => rfl
      | none =>
        rw [h1, h2] at ho
        simp at ho

/-- Transport a pointwise property of the step writes to the loop-wide
write list. -/
theorem objWritesAll_mem_of_step (env : Env)
    (rmx rbnx : List (String × Objective)) (ts : List Objective)
    (Q : String × String → Prop)
    (h : ∀ o ∈ ts, ∀ f, ∀ x ∈ objStepWrites env rmx rbnx f o, Q x) :
    ∀ f, ∀ x ∈ objWritesAll env rmx rbnx f ts, Q x := by
  induction ts with
  | nil =>
    intro f x hx
    cases hx
  | cons o rest ih =>
    intro f x hx
    unfold objWritesAll at hx
    rcases List.mem_append.mp hx with hx1 | hx1
    · exact h o (List.mem_cons_self o rest) f x hx1
    · exact ih (fun u hu => h u (List.mem_cons_of_mem o hu)) _ x hx1

/-- A matched upload step leaves the trace untouched. -/
theorem objUploadStep_matched_trace (env : Env)
    (rmx rbnx : List (String × Objective)) (st : ObjLoopState) (o : Objective)
    (h : (jsGet rmx o.id).isSome ∨ (jsGet rbnx (jsToLower o.name)).isSome) :
    (objUploadStep env rmx rbnx st o).trace = st.trace := by
  unfold objUploadStep
  cases h1 : jsGet rmx o.id with
  | some r => rfl
  | none =>
    cases h2 : jsGet rbnx (jsToLower o.name) with
    | some x => rfl
    | none =>
      rw [h1, h2] at h
      simp at h

theorem foldl_objUploadStep_trace_matched (env : Env)
    (rmx rbnx : List (String × Objective)) (ts : List Objective)
    (h : ∀ o ∈ ts, (jsGet rmx o.id).isSome ∨ (jsGet rbnx (jsToLower o.name)).isSome)
    (st : ObjLoopState) :
    (ts.foldl (objUploadStep env rmx rbnx) st).trace = st.trace := by
  induction ts generalizing st with
  | nil => rfl
  | cons o rest ih =>
    rw [List.foldl_cons, ih (fun u hu => h u (List.mem_cons_of_mem o hu)),
      objUploadStep_matched_trace env rmx rbnx st o (h o (List.mem_cons_self o rest))]

/-! Task-phase facts used by the second-run analysis. -/

theorem taskUploadStep_errors_ok (env : Env) (idm : List (String × String))
    (rmT : List (String × Task)) (st : TaskLoopState) (t : Task)
    (hc : ∀ p, env.createTaskOk p = true) :
    (taskUploadStep env idm rmT st t).errors = st.errors := by
  unfold taskUploadStep
  split
  · rfl
  · cases jsGet idm t.objectiveId with
    | none => rfl
    | some sid => simp [hc]

theorem foldl_taskUploadStep_errors_ok (env : Env)
    (idm : List (String × String)) (rmT : List (String × Task))
    (ts : List Task) (st : TaskLoopState)
    (hc : ∀ p, env.createTaskOk p = true) :
    ((ts.foldl (taskUploadStep env idm rmT) st).errors) = st.errors := by
  induction ts generalizing st with
  | nil => rfl
  | cons t rest ih =>
    rw [List.foldl_cons, ih, taskUploadStep_errors_ok env idm rmT st t hc]

theorem taskDownloadAdds_nil (lm : List (String × Task)) (rs : List Task)
    (h : ∀ r ∈ rs, jsHas lm r.id = true) :
    taskDownloadAdds lm rs = [] := by
  unfold taskDownloadAdds
  apply List.filter_eq_nil_iff.mpr
  intro r hr
  simp [h r hr]

theorem updateRemoteTask_ids (s : List Task) (id : String) (ts : TaskStatus)
    (c sk : Option String) :
    (updateRemoteTask s id ts c sk).map Task.id = s.map Task.id := by
  unfold updateRemoteTask
  rw [List.map_map]
  apply List.map_congr_left
  intro t ht
  by_cases h : t.id = id <;> simp [h]

theorem taskStatusStep_store_ids (env : Env) (rmT : List (String × Task))
    (st : TaskLoopState) (t : Task) :
    ((taskStatusStep env rmT st t).remoteStore).map Task.id =
      st.remoteStore.map Task.id := by
  unfold taskStatusStep
  cases jsGet rmT t.id with
  | none => rfl
  | some r =>
    simp only []
    split
    · split
      · exact updateRemoteTask_ids st.remoteStore t.id (apiStatusOf t.status)
          t.completedAt t.skippedReason
      · rfl
    · rfl

theorem foldl_taskStatusStep_store_ids (env : Env) (rmT : List (String × Task))
    (ts : List Task) (st : TaskLoopState) :
    (((ts.foldl (taskStatusStep env rmT) st).remoteStore).map Task.id) =
      st.remoteStore.map Task.id := by
  induction ts generalizing st with
  | nil => rfl
  | cons t rest ih =>
    rw [List.foldl_cons, ih, taskStatusStep_store_ids]

theorem taskUploadStep_store_ids_mono (env : Env) (idm : List (String × String))
    (rmT : List (String × Task)) (st : TaskLoopState) (t : Task) (k : String)
    (h : k ∈ st.remoteStore.map Task.id) :
    k ∈ ((taskUploadStep env idm rmT st t).remoteStore).map Task.id := by
  unfold taskUploadStep
  split
  · exact h
  · cases jsGet idm t.objectiveId with
    | none => exact h
    | some sid =>
      simp only []
      split
      · rw [show ({ st with
            trace := st.trace ++ [ApiCall.createTask
              (taskPayloadOf env idm st.fresh sid t)]
            remoteStore := st.remoteStore ++ [taskPayloadOf env idm st.fresh sid t]
            fresh := if isValidUUID t.id then st.fresh else st.fresh + 1
            : TaskLoopState }).remoteStore =
            st.remoteStore ++ [taskPayloadOf env idm st.fresh sid t] from rfl]
        rw [List.map_append]
        exact List.mem_append_left _ h
      · exact h

theorem foldl_taskUploadStep_store_ids_mono (env : Env)
    (idm : List (String × String)) (rmT : List (String × Task))
    (ts : List Task) (st : TaskLoopState) (k : String)
    (h : k ∈ st.remoteStore.map Task.id) :
    k ∈ (((ts.foldl (taskUploadStep env idm rmT) st).remoteStore).map Task.id) := by
  induction ts generalizing st with
  | nil => exact h
  | cons t rest ih =>
    rw [List.foldl_cons]
    exact ih _ (taskUploadStep_store_ids_mono env idm rmT st t k h)

theorem foldl_taskUploadStep_store_created (env : Env)
    (idm : List (String × String)) (rmT : List (String × Task))
    (ts : List Task) (st : TaskLoopState) (t : Task)
    (ht : t ∈ ts) (hA : jsHas rmT t.id = false)
    (hm : (jsGet idm t.objectiveId).isSome)
    (hid : isValidUUID t.id = true)
    (hc : ∀ p, env.createTaskOk p = true) :
    t.id ∈ (((ts.foldl (taskUploadStep env idm rmT) st).remoteStore).map Task.id) := by
  induction ts generalizing st with
  | nil => cases ht
  | cons u rest ih =>
    rw [List.foldl_cons]
    rcases List.mem_cons.mp ht with heq | ht'
    · subst heq
      apply foldl_taskUploadStep_store_ids_mono
      unfold taskUploadStep
      rw [hA]
      simp only [Bool.false_eq_true, if_false]
      cases hjm : jsGet idm t.objectiveId with
      | none =>
        rw [hjm] at hm
        cases hm
      | some sid =>
        simp only [hc, if_true]
        rw [List.map_append]
        apply List.mem_append_right
        simp [taskPayloadOf, hid]
    · exact ih _ ht'

theorem foldl_taskUploadStep_inert (env : Env) (idm : List (String × String))
    (rmT : List (String × Task)) (ts : List Task) (st : TaskLoopState)
    (h : ∀ t ∈ ts, jsHas rmT t.id = true ∨ jsGet idm t.objectiveId = none) :
    ts.foldl (taskUploadStep env idm rmT) st = st := by
  induction ts generalizing st with
  | nil => rfl
  | cons t rest ih =>
    rw [List.foldl_cons]
    have hstep : taskUploadStep env idm rmT st t = st := by
      rcases h t (List.mem_cons_self t rest) with h1 | h1
      · unfold taskUploadStep
        simp [h1]
      · cases hA : jsHas rmT t.id with
        | true =>
          unfold taskUploadStep
          simp [hA]
        | false => exact taskUploadStep_deferred env idm rmT st t hA h1
    rw [hstep]
    exact ih st (fun u hu => h u (List.mem_cons_of_mem t hu))

theorem createCallsOf_map_statusPushCall (l : List Task) :
    createCallsOf (l.map statusPushCall) = [] := by
  unfold createCallsOf
  apply List.filter_eq_nil_iff.mpr
  intro c hc
  rcases List.mem_map.mp hc with ⟨t, _, rfl⟩
  simp [statusPushCall, isCreateCall]

/-! A clean pass: explicit shape of syncAll when every call succeeds and
both download directions find nothing to add. -/

/-- The mapping writes of one objective phase of a pass over a world. -/
def objWrites1 (env : Env) (w : World) : List (String × String) :=
  objWritesAll env (buildObjMap w.remoteObjectives)
    (buildRemoteByName w.remoteObjectives) w.fresh w.localObjectives

/-- The payloads submitted by one objective phase of a pass over a world. -/
def objPayloads1 (env : Env) (w : World) : List Objective :=
  objPayloadsAll env (buildObjMap w.remoteObjectives)
    (buildRemoteByName w.remoteObjectives) w.fresh w.localObjectives

/-- The world as the objective phase of a clean pass leaves it. -/
def passW2 (env : Env) (w : World) : World :=
  { w with
    status := SyncStatus.syncing
    errMsg := none
    remoteObjectives := w.remoteObjectives ++ objPayloads1 env w
    idMapping := jsApply w.idMapping (objWrites1 env w)
    fresh := (objUploadLoop env w).fresh }

/-- The final task-loop accumulator of a clean pass. -/
def passTaskFinal (env : Env) (w : World) : TaskLoopState :=
  taskStatusLoop env (passW2 env w) (taskUploadLoop env (passW2 env w))

/-- The world a clean pass publishes. -/
def passWorld (env : Env) (w : World) : World :=
  { passW2 env w with
    status := SyncStatus.success
    lastSyncAt := some env.now
    errMsg := none
    remoteTasks := (passTaskFinal env w).remoteStore
    fresh := (passTaskFinal env w).fresh }

theorem syncAll_clean_pass (env : Env) (w : World)
    (hAuth : env.isAuthenticated = true)
    (hGO : env.getObjectivesOk = true)
    (hGo1 : ∀ id, env.getObjectiveOk id = true)
    (hCO : ∀ p, env.createObjectiveOk p = true)
    (hGT : env.getTasksOk = true)
    (hCT : ∀ p, env.createTaskOk p = true)
    (hOD : ∀ r ∈ w.remoteObjectives,
      jsHas (buildObjMap w.localObjectives) r.id = true)
    (hTD : ∀ r ∈ w.remoteTasks,
      jsHas (buildTaskMap w.localTasks) r.id = true) :
    syncAll env w =
      (passWorld env w,
        (objUploadLoop env w).trace ++ (passTaskFinal env w).trace,
        { success := true, message := none }) := by
  have hdl : objDownload env (syncingWorld w) (objUploadLoop env (syncingWorld w)) =
      ({ idm := (objUploadLoop env (syncingWorld w)).idm
         trace := (objUploadLoop env (syncingWorld w)).trace
         added := [] }, none) := by
    unfold objDownload
    exact objDownloadLoop_all_present env _ _ _ hOD
  have hstore : (objUploadLoop env (syncingWorld w)).remoteStore =
      w.remoteObjectives ++ objPayloads1 env w := by
    unfold objUploadLoop
    rw [foldl_objUploadStep_store env _ _ _ _ hCO]
    rfl
  have hidm : (objUploadLoop env (syncingWorld w)).idm =
      jsApply w.idMapping (objWrites1 env w) := by
    unfold objUploadLoop
    rw [foldl_objUploadStep_idm env _ _ _ _ hCO]
    rfl
  have herr : (objUploadLoop env (syncingWorld w)).errors = [] := by
    unfold objUploadLoop
    rw [foldl_objUploadStep_errors_ok env _ _ _ _ hCO]
    rfl
  have hobj1 : syncObjectives env (syncingWorld w) =
      (passW2 env w, (objUploadLoop env w).trace, Except.ok []) := by
    rw [syncObjectives_eq_ok env (syncingWorld w) hGO hGo1, hdl, hstore, hidm, herr]
    simp only [syncingWorld, List.append_nil]
    rfl
  have herrt : (taskStatusLoop env (passW2 env w)
      (taskUploadLoop env (passW2 env w))).errors = [] := by
    unfold taskStatusLoop
    rw [foldl_taskStatusStep_errors]
    unfold taskUploadLoop
    rw [foldl_taskUploadStep_errors_ok env _ _ _ _ hCT]
    rfl
  have hadds : taskDownloadAdds (buildTaskMap (passW2 env w).localTasks)
      (passW2 env w).remoteTasks = [] :=
    taskDownloadAdds_nil _ _ hTD
  have htask1 : syncTasks env (passW2 env w) =
      ({ passW2 env w with
          remoteTasks := (passTaskFinal env w).remoteStore
          fresh := (passTaskFinal env w).fresh },
        (passTaskFinal env w).trace, Except.ok []) := by
    rw [syncTasks_eq_ok env _ hGT, hadds, herrt]
    simp only [List.append_nil]
    rfl
  have hfin := syncAll_ok_path env w hAuth _ _ _ hobj1 _ _ _ htask1
  rw [hfin]
  rfl

theorem taskUploadStep_store_ids_subset (env : Env)
    (idm : List (String × String)) (rmT : List (String × Task))
    (st : TaskLoopState) (t : Task) (hid : isValidUUID t.id = true) (k : String)
    (hk : k ∈ ((taskUploadStep env idm rmT st t).remoteStore).map Task.id) :
    k ∈ st.remoteStore.map Task.id ∨ k = t.id := by
  revert hk
  unfold taskUploadStep
  split
  · exact Or.inl
  · cases hjm : jsGet idm t.objectiveId with
    | none => exact Or.inl
    | some sid =>
      simp only []
      split
      · intro hk
        simp only [List.map_append, List.mem_append, List.map_cons, List.map_nil,
          List.mem_singleton] at hk
        rcases hk with hk | hk
        · exact Or.inl hk
        · right
          rw [hk]
          simp [taskPayloadOf, hid]
      · exact Or.inl

theorem foldl_taskUploadStep_store_ids_subset (env : Env)
    (idm : List (String × String)) (rmT : List (String × Task))
    (ts : List Task) (st : TaskLoopState)
    (hT : ∀ t ∈ ts, isValidUUID t.id = true) (k : String)
    (hk : k ∈ (((ts.foldl (taskUploadStep env idm rmT) st).remoteStore).map Task.id)) :
    k ∈ st.remoteStore.map Task.id ∨ k ∈ ts.map Task.id := by
  induction ts generalizing st with
  | nil => exact Or.inl hk
  | cons t rest ih =>
    rw [List.foldl_cons] at hk
    rcases ih _ (fun u hu => hT u (List.mem_cons_of_mem t hu)) hk with h1 | h1
    · rcases taskUploadStep_store_ids_subset env idm rmT st t
          (hT t (List.mem_cons_self t rest)) k h1 with h2 | h2
      · exact Or.inl h2
      · right
        rw [h2]
        exact List.mem_map_of_mem Task.id (List.mem_cons_self t rest)
    · exact Or.inr (List.mem_cons_of_mem t.id h1)

/-- C1.  Corrected: as stated the idempotence claim fails (see the
counterexample: a local objective whose id is not UUID-shaped is uploaded
under a minted id, and the next pass downloads the remote copy and grows
the mapping).  Under the preconditions that every local objective and
local task id is already UUID-shaped, local ids and lowercased names are
duplicate-free, every remote entity has a local counterpart of the same
id, the module mapping has duplicate-free keys, and every call succeeds,
a second reconciliation pass issues zero creation calls and returns the
identity mapping exactly as the first pass left it. -/
theorem C1_second_pass_stable (env : Env) (w : World)
    (hAuth : env.isAuthenticated = true)
    (hGO : env.getObjectivesOk = true)
    (hGo1 : ∀ id, env.getObjectiveOk id = true)
    (hCO : ∀ p, env.createObjectiveOk p = true)
    (hGT : env.getTasksOk = true)
    (hCT : ∀ p, env.createTaskOk p = true)
    (hM0 : (jsKeys w.idMapping).Nodup)
    (hids : ∀ o ∈ w.localObjectives, isValidUUID o.id = true)
    (hB : (blocksOf w.localObjectives).Nodup)
    (hN : (w.localObjectives.map (fun o => jsToLower o.name)).Nodup)
    (hCN : ∀ o ∈ w.localObjectives,
      ((o.pillars.map (fun c => jsToLower c.name)).Nodup
        ∧ (o.metrics.map (fun c => jsToLower c.name)).Nodup
        ∧ (o.rituals.map (fun c => jsToLower c.name)).Nodup))
    (hOD : ∀ r ∈ w.remoteObjectives,
      jsHas (buildObjMap w.localObjectives) r.id = true)
    (hTids : ∀ t ∈ w.localTasks, isValidUUID t.id = true)
    (hTD : ∀ r ∈ w.remoteTasks, jsHas (buildTaskMap w.localTasks) r.id = true) :
    createCallsOf (syncAll env (syncAll env w).1).2.1 = []
    ∧ (syncAll env (syncAll env w).1).1.idMapping = (syncAll env w).1.idMapping := by
  have hlsnd : (w.localObjectives.map Objective.id).Nodup :=
    hB.sublist (blocksOf_ids_sublist w.localObjectives)
  have hEqA := syncAll_clean_pass env w hAuth hGO hGo1 hCO hGT hCT hOD hTD
  have hOD1 : ∀ r ∈ (passWorld env w).remoteObjectives,
      jsHas (buildObjMap (passWorld env w).localObjectives) r.id = true := by
    intro r hr
    rcases List.mem_append.mp hr with h | h
    · exact hOD r h
    · rcases objPayloadsAll_mem env _ _ _ _ r h with ⟨u, hu, f', hru, _, _⟩
      have hre : r.id = u.id := by
        rw [hru]
        exact uploadPayload_id_of_uuid env f' u (hids u hu)
      rw [hre]
      exact jsHas_buildObjMap_of_mem _ _ (List.mem_map_of_mem Objective.id hu)
  have hids2 : ((passTaskFinal env w).remoteStore).map Task.id =
      ((taskUploadLoop env (passW2 env w)).remoteStore).map Task.id := by
    unfold passTaskFinal taskStatusLoop
    rw [foldl_taskStatusStep_store_ids]
  have hTD1 : ∀ r ∈ (passWorld env w).remoteTasks,
      jsHas (buildTaskMap (passWorld env w).localTasks) r.id = true := by
    intro r hr
    have hidmem : r.id ∈ ((passTaskFinal env w).remoteStore).map Task.id :=
      List.mem_map_of_mem Task.id hr
    rw [hids2] at hidmem
    have hsub := foldl_taskUploadStep_store_ids_subset env
        (passW2 env w).idMapping (buildTaskMap (passW2 env w).remoteTasks)
        (passW2 env w).localTasks (taskState0 (passW2 env w))
        (fun t ht => hTids t ht) r.id hidmem
    rcases hsub with h | h
    · rcases List.mem_map.mp h with ⟨r', hr', hre⟩
      have hx := hTD r' hr'
      rw [hre] at hx
      exact hx
    · exact jsHas_buildTaskMap_of_mem _ _ h
  have hEqB := syncAll_clean_pass env (passWorld env w) hAuth hGO hGo1 hCO hGT
    hCT hOD1 hTD1
  have hmatch : ∀ o ∈ (passWorld env w).localObjectives,
      (jsGet (buildObjMap (passWorld env w).remoteObjectives) o.id).isSome
        ∨ (jsGet (buildRemoteByName (passWorld env w).remoteObjectives)
            (jsToLower o.name)).isSome :=
    fun o ho => (run2_step env w.remoteObjectives w.localObjectives w.fresh
      hids hlsnd hN hCN o ho 0).1
  have hmem2 : ∀ f2, ∀ x ∈ objWritesAll env
      (buildObjMap (passWorld env w).remoteObjectives)
      (buildRemoteByName (passWorld env w).remoteObjectives) f2
      (passWorld env w).localObjectives,
      x ∈ objWrites1 env w :=
    objWritesAll_mem_of_step env _ _ _ _
      (fun o ho f2 x hx => (run2_step env w.remoteObjectives w.localObjectives
        w.fresh hids hlsnd hN hCN o ho f2).2 x hx)
  have hWnd : ((objWrites1 env w).map Prod.fst).Nodup :=
    hB.sublist (objWritesAll_keys_sublist env _ _ _ _)
  have hM1nd : (jsKeys (jsApply w.idMapping (objWrites1 env w))).Nodup :=
    jsKeys_nodup_jsApply _ _ hM0
  have hfix : jsApply (jsApply w.idMapping (objWrites1 env w))
      (objWrites1 env (passWorld env w)) =
      jsApply w.idMapping (objWrites1 env w) := by
    apply jsApply_eq_self _ _ hM1nd
    intro p hp
    have hpW : p ∈ objWrites1 env w := hmem2 (passWorld env w).fresh p hp
    exact jsGet_jsApply_of_nodup _ _ p.1 p.2 hWnd hpW
  have htr2a : (objUploadLoop env (passWorld env w)).trace =
      [ApiCall.getObjectives] := by
    unfold objUploadLoop
    rw [foldl_objUploadStep_trace_matched env _ _ _ hmatch]
    rfl
  have hIDM2 : (passW2 env (passWorld env w)).idMapping =
      jsApply w.idMapping (objWrites1 env w) := hfix
  have hRT : ((passW2 env (passWorld env w)).remoteTasks) =
      (passTaskFinal env w).remoteStore := rfl
  have hinert : ∀ t ∈ (passW2 env (passWorld env w)).localTasks,
      jsHas (buildTaskMap (passW2 env (passWorld env w)).remoteTasks) t.id = true
        ∨ jsGet (passW2 env (passWorld env w)).idMapping t.objectiveId = none := by
    intro t ht
    have ht' : t ∈ w.localTasks := ht
    cases hA : jsHas (buildTaskMap w.remoteTasks) t.id with
    | true =>
      left
      have hmemr : t.id ∈ w.remoteTasks.map Task.id :=
        mem_ids_of_buildTaskMap_has _ _ hA
      have hup : t.id ∈
          ((taskUploadLoop env (passW2 env w)).remoteStore).map Task.id := by
        unfold taskUploadLoop
        exact foldl_taskUploadStep_store_ids_mono env _ _ _ _ t.id hmemr
      apply jsHas_buildTaskMap_of_mem
      rw [hRT, hids2]
      exact hup
    | false =>
      cases hm : jsGet (jsApply w.idMapping (objWrites1 env w)) t.objectiveId with
      | none =>
        right
        rw [hIDM2]
        exact hm
      | some sid =>
        left
        have hup : t.id ∈
            ((taskUploadLoop env (passW2 env w)).remoteStore).map Task.id := by
          unfold taskUploadLoop
          exact foldl_taskUploadStep_store_created env _ _ _ _ t ht' hA
            (show (jsGet (jsApply w.idMapping (objWrites1 env w))
              t.objectiveId).isSome = true by rw [hm]; rfl)
            (hTids t ht') hCT
        apply jsHas_buildTaskMap_of_mem
        rw [hRT, hids2]
        exact hup
  have hUL2 : taskUploadLoop env (passW2 env (passWorld env w)) =
      taskState0 (passW2 env (passWorld env w)) := by
    unfold taskUploadLoop
    exact foldl_taskUploadStep_inert env _ _ _ _ hinert
  have htr2b : (passTaskFinal env (passWorld env w)).trace =
      [ApiCall.getTasks] ++
        (((passW2 env (passWorld env w)).localTasks).filter
          (statusPushNeeded
            (buildTaskMap (passW2 env (passWorld env w)).remoteTasks))).map
          statusPushCall := by
    unfold passTaskFinal taskStatusLoop
    rw [hUL2, foldl_taskStatusStep_trace]
    rfl
  have hc2 : createCallsOf ((objUploadLoop env (passWorld env w)).trace
      ++ (passTaskFinal env (passWorld env w)).trace) = [] := by
    rw [createCallsOf_append, htr2a, htr2b, createCallsOf_append,
      createCallsOf_map_statusPushCall]
    rfl
  constructor
  · rw [hEqA]
    show createCallsOf (syncAll env (passWorld env w)).2.1 = []
    rw [hEqB]
    show createCallsOf ((objUploadLoop env (passWorld env w)).trace
      ++ (passTaskFinal env (passWorld env w)).trace) = []
    exact hc2
  · rw [hEqA]
    show (syncAll env (passWorld env w)).1.idMapping = (passWorld env w).idMapping
    rw [hEqB]
    show jsApply (jsApply w.idMapping (objWrites1 env w))
        (objWrites1 env (passWorld env w)) =
      jsApply w.idMapping (objWrites1 env w)
    exact hfix

/-- A local objective already carrying a server-shaped (UUID) id. -/
def c1IdObj : Objective := { id := "aaaaaaaa-aaaa-aaaa-aaaa-aaaaaaaaaaaa", name := "W" }

/-- A local task with a UUID id attached to that objective. -/
def c1IdTask : Task :=
  { id := "bbbbbbbb-bbbb-bbbb-bbbb-bbbbbbbbbbbb"
    objectiveId := "aaaaaaaa-aaaa-aaaa-aaaa-aaaaaaaaaaaa"
    title := "T" }

/-- World of the idempotence witness. -/
def c1IdWorld : World :=
  { localObjectives := [c1IdObj], localTasks := [c1IdTask] }

/-- Witness for the corrected idempotence theorem at a concrete world. -/
theorem C1_second_pass_stable_witness :
    createCallsOf (syncAll okEnv (syncAll okEnv c1IdWorld).1).2.1 = []
    ∧ (syncAll okEnv (syncAll okEnv c1IdWorld).1).1.idMapping =
        (syncAll okEnv c1IdWorld).1.idMapping :=
  C1_second_pass_stable okEnv c1IdWorld rfl rfl (fun _ => rfl) (fun _ => rfl)
    rfl (fun _ => rfl) (by decide) (by decide) (by decide) (by decide)
    (by decide) (by decide) (by decide) (by decide)

end TelofySync
